import Mathlib

/-!
Verification of the AGI_Assistant learning/automation engine.

Shallow embedding of the repository's Python modules:
 * `src/src/intelligence/pattern_detector.py`  (sequence extraction, Levenshtein
   similarity, pattern grouping)
 * `src/src/intelligence/llm_interface.py`     (JSON extraction from LLM output)
 * `src/src/intelligence/workflow_generator.py` (fallback synthesis, validation)
 * `src/src/intelligence/learning_engine.py`   (per-session learning)
 * `src/src/automation/executor.py`            (structured workflow executor)
 * `src/automation_executor.py`                (GUI executor with stop/pause flags)
 * `src/src/storage/database.py`               (sqlite-backed store)

Python `float` values are modelled as exact rationals (`ℚ`); JSON numbers are
modelled as integers (floating point is outside the embedding).  External
collaborators (pyautogui handlers, the screenshot verifier, the LLM, the file
system) are parameters of the embedded functions.
-/

namespace AGI

/-- JSON values handled by Python's `json` module, with numbers restricted to
integers (the repository's workflows only ever serialize integers and strings;
floating-point literals are outside the shallow embedding).  Objects keep key
order, mirroring Python dicts. -/
inductive Json where
  | null : Json
  | bool : Bool → Json
  | int : Int → Json
  | str : String → Json
  | arr : List Json → Json
  | obj : List (String × Json) → Json

/-- Character of a decimal digit. -/
def digitChar : Nat → Char
  | 0 => '0'
  | 1 => '1'
  | 2 => '2'
  | 3 => '3'
  | 4 => '4'
  | 5 => '5'
  | 6 => '6'
  | 7 => '7'
  | 8 => '8'
  | 9 => '9'
  | _ => '0'

/-- Fuel-driven digit accumulator (structural recursion so that concrete
values compute). -/
def natCharsAux : Nat → Nat → List Char → List Char
  | 0, _, acc => acc
  | fuel + 1, n, acc =>
    if n < 10 then digitChar n :: acc
    else natCharsAux fuel (n / 10) (digitChar (n % 10) :: acc)

/-- Decimal digits of a natural number, most significant first
(model of Python's `str`/`json.dumps` integer printing). -/
def natChars (n : Nat) : List Char := natCharsAux (n + 1) n []

/-- Decimal representation of an integer. -/
def intChars (i : Int) : List Char :=
  if i < 0 then '-' :: natChars i.natAbs else natChars i.natAbs

/-- JSON string escaping for one character.  `json.dumps` escapes the quote and
the backslash; the model leaves other characters literal (the repository's
workflows contain no control characters, and escaping choices do not affect
the parse result). -/
def escChar (c : Char) : List Char :=
  if c = '"' ∨ c = '\\' then ['\\', c] else [c]

/-- JSON string escaping for a character list. -/
def escStr : List Char → List Char
  | [] => []
  | c :: cs => escChar c ++ escStr cs

mutual

/-- Model of `json.dumps` (default separators `", "` and `": "`), producing the
serialized character list. -/
def dumpsV : Json → List Char
  | .bool true => ['t', 'r', 'u', 'e']
  | .bool false => ['f', 'a', 'l', 's', 'e']
  | .null => ['n', 'u', 'l', 'l']
  | .int i => intChars i
  | .str s => '"' :: (escStr s.toList ++ ['"'])
  | .arr xs => '[' :: (dumpsArr xs ++ [']'])
  | .obj ms => '{' :: (dumpsObj ms ++ ['}'])

/-- Serialized array items, comma-space separated. -/
def dumpsArr : List Json → List Char
  | [] => []
  | [x] => dumpsV x
  | x :: y :: rest => dumpsV x ++ ',' :: ' ' :: dumpsArr (y :: rest)

/-- Serialized object members, comma-space separated, `": "` after each key. -/
def dumpsObj : List (String × Json) → List Char
  | [] => []
  | [(k, v)] => '"' :: (escStr k.toList ++ '"' :: ':' :: ' ' :: dumpsV v)
  | (k, v) :: m :: rest =>
      ('"' :: (escStr k.toList ++ '"' :: ':' :: ' ' :: dumpsV v))
        ++ ',' :: ' ' :: dumpsObj (m :: rest)

end

/-- `json.dumps` as a string. -/
def dumps (v : Json) : String := String.mk (dumpsV v)

/-- The whitespace characters skipped by Python's JSON parser. -/
def isWS (c : Char) : Bool := c = ' ' || c = '\t' || c = '\n' || c = '\r'

/-- Drop leading JSON whitespace. -/
def skipWS : List Char → List Char
  | [] => []
  | c :: cs => if isWS c then skipWS cs else c :: cs

/-- Numeric value of a digit character. -/
def digVal (c : Char) : Nat := c.toNat - 48

/-- Consume a run of decimal digits, accumulating their value. -/
def parseDigits : List Char → Nat → Nat × List Char
  | [], acc => (acc, [])
  | c :: cs, acc =>
      if c.isDigit then parseDigits cs (acc * 10 + digVal c) else (acc, c :: cs)

/-- Unescape one escaped character (the escapes `json.loads` accepts, minus
the `\uXXXX` form which `dumps` above never emits). -/
def unesc (c : Char) : Option Char :=
  if c = '"' then some '"'
  else if c = '\\' then some '\\'
  else if c = '/' then some '/'
  else if c = 'n' then some '\n'
  else if c = 't' then some '\t'
  else if c = 'r' then some '\r'
  else if c = 'b' then some (Char.ofNat 8)
  else if c = 'f' then some (Char.ofNat 12)
  else none

/-- Parse the body of a JSON string (after the opening quote), returning the
decoded characters and the input after the closing quote. -/
def parseStrChars : List Char → Option (List Char × List Char)
  | [] => none
  | c :: cs =>
    if c = '"' then some ([], cs)
    else if c = '\\' then
      match cs with
      | [] => none
      | e :: cs2 =>
        match unesc e, parseStrChars cs2 with
        | some d, some (s, r) => some (d :: s, r)
        | _, _ => none
    else
      match parseStrChars cs with
      | some (s, r) => some (c :: s, r)
      | none => none

mutual

/-- Fuel-indexed model of Python's JSON value parser. -/
def parseV : Nat → List Char → Option (Json × List Char)
  | 0, _ => none
  | fuel + 1, input =>
    match skipWS input with
    | [] => none
    | c :: cs =>
      if c.isDigit then
        let p := parseDigits cs (digVal c)
        some (.int (p.1 : Int), p.2)
      else if c = '-' then
        match cs with
        | [] => none
        | d :: cs2 =>
          if d.isDigit then
            let p := parseDigits cs2 (digVal d)
            some (.int (-(p.1 : Int)), p.2)
          else none
      else if c = 'n' then
        match cs with
        | 'u' :: 'l' :: 'l' :: r => some (.null, r)
        | _ => none
      else if c = 't' then
        match cs with
        | 'r' :: 'u' :: 'e' :: r => some (.bool true, r)
        | _ => none
      else if c = 'f' then
        match cs with
        | 'a' :: 'l' :: 's' :: 'e' :: r => some (.bool false, r)
        | _ => none
      else if c = '"' then
        match parseStrChars cs with
        | some (s, r) => some (.str (String.mk s), r)
        | none => none
      else if c = '[' then
        match skipWS cs with
        | ']' :: r => some (.arr [], r)
        | cs2 =>
          match parseItems fuel cs2 with
          | some (vs, r) => some (.arr vs, r)
          | none => none
      else if c = '{' then
        match skipWS cs with
        | '}' :: r => some (.obj [], r)
        | cs2 =>
          match parseMembers fuel cs2 with
          | some (ms, r) => some (.obj ms, r)
          | none => none
      else none

/-- Parse one-or-more array items up to the closing bracket. -/
def parseItems : Nat → List Char → Option (List Json × List Char)
  | 0, _ => none
  | fuel + 1, input =>
    match parseV fuel input with
    | some (v, r) =>
      match skipWS r with
      | ',' :: r2 =>
        match parseItems fuel r2 with
        | some (vs, r3) => some (v :: vs, r3)
        | none => none
      | ']' :: r2 => some ([v], r2)
      | _ => none
    | none => none

/-- Parse one-or-more object members up to the closing brace. -/
def parseMembers : Nat → List Char → Option (List (String × Json) × List Char)
  | 0, _ => none
  | fuel + 1, input =>
    match skipWS input with
    | '"' :: cs =>
      match parseStrChars cs with
      | some (k, r) =>
        match skipWS r with
        | ':' :: r2 =>
          match parseV fuel r2 with
          | some (v, r3) =>
            match skipWS r3 with
            | ',' :: r4 =>
              match parseMembers fuel r4 with
              | some (ms, r5) => some ((String.mk k, v) :: ms, r5)
              | none => none
            | '}' :: r4 => some ([(String.mk k, v)], r4)
            | _ => none
          | none => none
        | _ => none
      | none => none
    | _ => none

end

/-- Model of `json.loads` on a character list: parse one value surrounded by
optional whitespace, rejecting trailing data. -/
def loadsChars (cs : List Char) : Option Json :=
  match parseV (cs.length + 1) cs with
  | some (v, r) => if skipWS r = [] then some v else none
  | none => none

/-- Model of `json.loads`. -/
def loads (s : String) : Option Json := loadsChars s.toList

mutual

/-- Node-count measure used for the parser's fuel accounting. -/
def jsize : Json → Nat
  | .null => 1
  | .bool _ => 1
  | .int _ => 1
  | .str _ => 1
  | .arr xs => 1 + jsizeList xs
  | .obj ms => 1 + jsizeMembers ms

/-- Size of array items. -/
def jsizeList : List Json → Nat
  | [] => 0
  | x :: xs => jsize x + 1 + jsizeList xs

/-- Size of object members. -/
def jsizeMembers : List (String × Json) → Nat
  | [] => 0
  | (_, v) :: ms => jsize v + 1 + jsizeMembers ms

end

/-! ### Round-trip: `loads (dumps v) = some v` -/

theorem jsize_pos (v : Json) : 1 ≤ jsize v := by
  cases v <;> simp [jsize]

theorem digitChar_isDigit {n : Nat} (h : n < 10) : (digitChar n).isDigit = true := by
  interval_cases n <;> decide

theorem digVal_digitChar {n : Nat} (h : n < 10) : digVal (digitChar n) = n := by
  interval_cases n <;> decide

theorem isWS_of_isDigit {c : Char} (h : c.isDigit = true) : isWS c = false := by
  by_contra hc
  simp only [isWS, Bool.or_eq_true, decide_eq_true_eq, Bool.not_eq_false] at hc
  rcases hc with ((h1 | h1) | h1) | h1 <;> subst h1 <;> simp at h

theorem natCharsAux_acc : ∀ (fuel n : Nat) (acc : List Char),
    natCharsAux fuel n acc = natCharsAux fuel n [] ++ acc := by
  intro fuel
  induction fuel with
  | zero => intro n acc; rfl
  | succ fuel ih =>
    intro n acc
    rw [natCharsAux]
    conv_rhs => rw [natCharsAux]
    by_cases h : n < 10
    · simp [h]
    · simp only [h, if_false]
      rw [ih (n / 10) (digitChar (n % 10) :: acc), ih (n / 10) [digitChar (n % 10)]]
      simp

theorem natCharsAux_fuel : ∀ (n f1 f2 : Nat), n < f1 → n < f2 →
    natCharsAux f1 n [] = natCharsAux f2 n [] := by
  intro n
  induction n using Nat.strong_induction_on with
  | _ n ih =>
    intro f1 f2 h1 h2
    cases f1 with
    | zero => exact absurd h1 (by omega)
    | succ g1 =>
      cases f2 with
      | zero => exact absurd h2 (by omega)
      | succ g2 =>
        rw [natCharsAux, natCharsAux]
        by_cases h : n < 10
        · simp [h]
        · simp only [h, if_false]
          rw [natCharsAux_acc g1, natCharsAux_acc g2,
            ih (n / 10) (Nat.div_lt_self (by omega) (by omega)) g1 g2
              (by omega) (by omega)]

theorem natChars_small {n : Nat} (h : n < 10) : natChars n = [digitChar n] := by
  rw [natChars, natCharsAux]
  simp [h]

theorem natChars_large {n : Nat} (h : ¬ n < 10) :
    natChars n = natChars (n / 10) ++ [digitChar (n % 10)] := by
  rw [natChars, natChars, natCharsAux]
  simp only [h, if_false]
  rw [natCharsAux_acc, natCharsAux_fuel (n / 10) n (n / 10 + 1)
    (Nat.div_lt_self (by omega) (by omega)) (by omega)]

theorem natChars_shape (n : Nat) :
    ∃ d t, natChars n = d :: t ∧ d.isDigit = true := by
  induction n using Nat.strong_induction_on with
  | _ n ih =>
    by_cases h : n < 10
    · exact ⟨digitChar n, [], natChars_small h, digitChar_isDigit h⟩
    · obtain ⟨d, t, hd, hdig⟩ := ih (n / 10) (Nat.div_lt_self (by omega) (by omega))
      exact ⟨d, t ++ [digitChar (n % 10)], by rw [natChars_large h, hd]; rfl, hdig⟩

theorem parseDigits_natChars (n : Nat) :
    ∀ acc rest, parseDigits (natChars n ++ rest) acc
      = parseDigits rest (acc * 10 ^ (natChars n).length + n) := by
  induction n using Nat.strong_induction_on with
  | _ n ih =>
    intro acc rest
    by_cases h : n < 10
    · rw [natChars_small h]
      simp [parseDigits, digitChar_isDigit h, digVal_digitChar h]
    · rw [natChars_large h]
      rw [List.append_assoc, ih (n / 10) (Nat.div_lt_self (by omega) (by omega))]
      have h10 : n % 10 < 10 := Nat.mod_lt _ (by omega)
      simp only [List.singleton_append, parseDigits, digitChar_isDigit h10,
        digVal_digitChar h10, if_true, List.length_append, List.length_singleton]
      have : (acc * 10 ^ (natChars (n / 10)).length + n / 10) * 10 + n % 10
          = acc * 10 ^ ((natChars (n / 10)).length + 1) + n := by
        rw [pow_succ]
        have := Nat.div_add_mod n 10
        ring_nf
        omega
      rw [this]
      simp

/-- A list that does not begin with a decimal digit. -/
def digitHeaded : List Char → Bool
  | [] => false
  | c :: _ => c.isDigit

theorem parseDigits_stop {rest : List Char} (h : digitHeaded rest = false) (a : Nat) :
    parseDigits rest a = (a, rest) := by
  cases rest with
  | nil => rfl
  | cons c t => simp [digitHeaded] at h; simp [parseDigits, h]

theorem parseStr_escStr (s : List Char) (rest : List Char) :
    parseStrChars (escStr s ++ '"' :: rest) = some (s, rest) := by
  induction s with
  | nil =>
    rw [escStr, List.nil_append, parseStrChars.eq_def]
    simp
  | cons c cs ih =>
    by_cases hc : c = '"' ∨ c = '\\'
    · have hesc : escChar c = ['\\', c] := by simp [escChar, hc]
      have hu : unesc c = some c := by
        rcases hc with h | h <;> subst h <;> decide
      rw [escStr, hesc, List.cons_append, List.singleton_append, parseStrChars.eq_def]
      simp [hu, ih]
    · push_neg at hc
      have hesc : escChar c = [c] := by simp [escChar, hc.1, hc.2]
      rw [escStr, hesc, List.singleton_append, parseStrChars.eq_def]
      simp [hc.1, hc.2, ih]

theorem skipWS_cons {c : Char} {t : List Char} (h : isWS c = false) :
    skipWS (c :: t) = c :: t := by
  simp [skipWS, h]

theorem toList_mk (l : List Char) : (String.mk l).toList = l := rfl

theorem mk_toList (s : String) : String.mk s.toList = s := rfl

theorem mk_data (s : String) : String.mk s.data = s := rfl

theorem not_digit_of_ne {c : Char} (h : c.isDigit = true) :
    c ≠ ']' ∧ c ≠ '}' ∧ c ≠ ',' ∧ c ≠ ':' ∧ c ≠ '"' := by
  refine ⟨?_, ?_, ?_, ?_, ?_⟩ <;> rintro rfl <;> simp at h

/-- Every serialized value starts with a character that is not whitespace and
not a closing delimiter. -/
theorem dumpsV_shape (v : Json) :
    ∃ c t, dumpsV v = c :: t ∧ isWS c = false ∧ c ≠ ']' ∧ c ≠ '}' := by
  cases v with
  | null =>
    exact ⟨'n', ['u', 'l', 'l'], by rw [dumpsV], by decide, by decide, by decide⟩
  | bool b =>
    cases b with
    | true =>
      exact ⟨'t', ['r', 'u', 'e'], by rw [dumpsV], by decide, by decide, by decide⟩
    | false =>
      exact ⟨'f', ['a', 'l', 's', 'e'], by rw [dumpsV], by decide, by decide, by decide⟩
  | int i =>
    by_cases hi : i < 0
    · exact ⟨'-', natChars i.natAbs, by rw [dumpsV, intChars, if_pos hi],
        by decide, by decide, by decide⟩
    · obtain ⟨d, t, hdt, hdig⟩ := natChars_shape i.natAbs
      refine ⟨d, t, by rw [dumpsV, intChars, if_neg hi, hdt], isWS_of_isDigit hdig,
        (not_digit_of_ne hdig).1, (not_digit_of_ne hdig).2.1⟩
  | str s =>
    exact ⟨'"', escStr s.toList ++ ['"'], by rw [dumpsV], by decide, by decide, by decide⟩
  | arr xs =>
    exact ⟨'[', dumpsArr xs ++ [']'], by rw [dumpsV], by decide, by decide, by decide⟩
  | obj ms =>
    exact ⟨'{', dumpsObj ms ++ ['}'], by rw [dumpsV], by decide, by decide, by decide⟩

/-- Parsing is unaffected by one leading space. -/
theorem parseV_space (f : Nat) (input : List Char) :
    parseV f (' ' :: input) = parseV f input := by
  cases f with
  | zero => rw [parseV, parseV]
  | succ f =>
    rw [parseV]
    conv_rhs => rw [parseV]
    have h : skipWS (' ' :: input) = skipWS input := by
      rw [skipWS.eq_def]
      simp [isWS]
    rw [h]

/-- Side condition: parsing an integer must not be followed by more digits. -/
def numOk : Json → List Char → Prop
  | .int _, rest => digitHeaded rest = false
  | _, _ => True

theorem parseDigits_natChars_concat {n : Nat} {rest : List Char}
    (h : digitHeaded rest = false) :
    parseDigits (natChars n ++ rest) 0 = (n, rest) := by
  rw [parseDigits_natChars, parseDigits_stop h]
  simp

theorem numOk_cons {v : Json} {c : Char} {t : List Char} (h : c.isDigit = false) :
    numOk v (c :: t) := by
  cases v <;> simp [numOk, digitHeaded, h]

theorem parseItems_space (f : Nat) (input : List Char) :
    parseItems (f + 1) (' ' :: input) = parseItems (f + 1) input := by
  rw [parseItems]
  conv_rhs => rw [parseItems]
  rw [parseV_space]

theorem parseMembers_space (f : Nat) (input : List Char) :
    parseMembers (f + 1) (' ' :: input) = parseMembers (f + 1) input := by
  rw [parseMembers]
  conv_rhs => rw [parseMembers]
  have h : skipWS (' ' :: input) = skipWS input := by
    rw [skipWS.eq_def]
    simp [isWS]
  rw [h]

theorem roundtripAux : ∀ fuel : Nat,
    (∀ v rest, jsize v ≤ fuel → numOk v rest →
        parseV fuel (dumpsV v ++ rest) = some (v, rest))
    ∧ (∀ xs rest (pre : List Char), xs ≠ [] → jsizeList xs ≤ fuel →
        (pre = [] ∨ pre = [' ']) →
        parseItems fuel (pre ++ (dumpsArr xs ++ ']' :: rest)) = some (xs, rest))
    ∧ (∀ ms rest (pre : List Char), ms ≠ [] → jsizeMembers ms ≤ fuel →
        (pre = [] ∨ pre = [' ']) →
        parseMembers fuel (pre ++ (dumpsObj ms ++ '}' :: rest)) = some (ms, rest)) := by
  intro fuel
  induction fuel with
  | zero =>
    refine ⟨?_, ?_, ?_⟩
    · intro v rest h _
      exact absurd h (by have := jsize_pos v; omega)
    · intro xs rest pre hne h _
      cases xs with
      | nil => exact absurd rfl hne
      | cons x t =>
        exact absurd h (by have := jsize_pos x; simp only [jsizeList]; omega)
    · intro ms rest pre hne h _
      cases ms with
      | nil => exact absurd rfl hne
      | cons m t =>
        exact absurd h (by have := jsize_pos m.2; cases m; simp only [jsizeMembers]; omega)
  | succ fuel ih =>
    obtain ⟨ih1, ih2, ih3⟩ := ih
    refine ⟨?_, ?_, ?_⟩
    · -- values
      intro v rest hsz hnum
      cases v with
      | null =>
        rw [show dumpsV .null = ['n', 'u', 'l', 'l'] from by rw [dumpsV]]
        rw [parseV, List.cons_append, skipWS_cons (by decide)]
        simp
      | bool b =>
        cases b with
        | true =>
          rw [show dumpsV (.bool true) = ['t', 'r', 'u', 'e'] from by rw [dumpsV]]
          rw [parseV, List.cons_append, skipWS_cons (by decide)]
          simp
        | false =>
          rw [show dumpsV (.bool false) = ['f', 'a', 'l', 's', 'e'] from by rw [dumpsV]]
          rw [parseV, List.cons_append, skipWS_cons (by decide)]
          simp
      | str s =>
        rw [show dumpsV (.str s) = '"' :: (escStr s.toList ++ ['"']) from by rw [dumpsV]]
        rw [parseV, List.cons_append, skipWS_cons (by decide)]
        have hps : parseStrChars (escStr s.data ++ '"' :: rest)
            = some (s.data, rest) := parseStr_escStr _ _
        simp [hps, mk_toList, mk_data]
      | int i =>
        have hnum' : digitHeaded rest = false := hnum
        rw [show dumpsV (.int i) = intChars i from by rw [dumpsV]]
        by_cases hi : i < 0
        · rw [intChars, if_pos hi, List.cons_append]
          obtain ⟨d, t, hdt, hdig⟩ := natChars_shape i.natAbs
          rw [parseV, skipWS_cons (by decide)]
          have hpd : parseDigits (t ++ rest) (digVal d) = (i.natAbs, rest) := by
            have h0 := @parseDigits_natChars_concat i.natAbs rest hnum'
            rw [hdt, List.cons_append, parseDigits.eq_def] at h0
            simpa [hdig] using h0
          rw [hdt, List.cons_append]
          have habs : ((i.natAbs : Nat) : Int) = -i :=
            Int.ofNat_natAbs_of_nonpos (le_of_lt hi)
          simp [hdig, hpd, habs]
        · rw [intChars, if_neg hi]
          obtain ⟨d, t, hdt, hdig⟩ := natChars_shape i.natAbs
          rw [hdt, List.cons_append, parseV,
            skipWS_cons (isWS_of_isDigit hdig)]
          have hpd : parseDigits (t ++ rest) (digVal d) = (i.natAbs, rest) := by
            have h0 := @parseDigits_natChars_concat i.natAbs rest hnum'
            rw [hdt, List.cons_append, parseDigits.eq_def] at h0
            simpa [hdig] using h0
          have habs : ((i.natAbs : Nat) : Int) = i :=
            Int.natAbs_of_nonneg (not_lt.mp hi)
          simp [hdig, hpd, habs]
      | arr xs =>
        cases xs with
        | nil =>
          rw [show dumpsV (.arr []) = '[' :: (dumpsArr [] ++ [']'])
            from by rw [dumpsV], show dumpsArr ([] : List Json) = [] from by rw [dumpsArr]]
          rw [parseV, List.nil_append, List.cons_append, skipWS_cons (by decide)]
          simp [skipWS_cons (by decide : isWS ']' = false)]
        | cons x t =>
          rw [show dumpsV (.arr (x :: t)) = '[' :: (dumpsArr (x :: t) ++ [']'])
            from by rw [dumpsV]]
          rw [parseV, List.cons_append, skipWS_cons (by decide)]
          have hsub : jsizeList (x :: t) ≤ fuel := by
            simp only [jsize] at hsz
            omega
          have harr := ih2 (x :: t) rest [] (by simp) hsub (Or.inl rfl)
          simp only [List.nil_append] at harr
          obtain ⟨c, t2, hct, hws, hne1, _⟩ := dumpsV_shape x
          obtain ⟨l, hl⟩ : ∃ l, dumpsArr (x :: t) = c :: l := by
            cases t with
            | nil => exact ⟨t2, by simp [dumpsArr, hct]⟩
            | cons y t3 =>
              exact ⟨t2 ++ ',' :: ' ' :: dumpsArr (y :: t3), by simp [dumpsArr, hct]⟩
          have hrw : (dumpsArr (x :: t) ++ [']']) ++ rest
              = c :: (l ++ ']' :: rest) := by
            rw [hl]
            simp
          have hrw2 : dumpsArr (x :: t) ++ ']' :: rest = c :: (l ++ ']' :: rest) := by
            rw [hl]
            simp
          simp [hrw2, skipWS_cons hws, show ('[' : Char).isDigit = false from by decide]
          split
          next r heq =>
            injection heq with h1 _
            exact absurd h1 hne1
          next =>
            rw [← hrw2, harr]
      | obj ms =>
        cases ms with
        | nil =>
          rw [show dumpsV (.obj []) = '{' :: (dumpsObj [] ++ ['}'])
            from by rw [dumpsV],
            show dumpsObj ([] : List (String × Json)) = [] from by rw [dumpsObj]]
          rw [parseV, List.nil_append, List.cons_append, skipWS_cons (by decide)]
          simp [skipWS_cons (by decide : isWS '}' = false)]
        | cons m t =>
          rw [show dumpsV (.obj (m :: t)) = '{' :: (dumpsObj (m :: t) ++ ['}'])
            from by rw [dumpsV]]
          rw [parseV, List.cons_append, skipWS_cons (by decide)]
          have hsub : jsizeMembers (m :: t) ≤ fuel := by
            simp only [jsize] at hsz
            omega
          have hobj := ih3 (m :: t) rest [] (by simp) hsub (Or.inl rfl)
          simp only [List.nil_append] at hobj
          obtain ⟨l, hl⟩ : ∃ l, dumpsObj (m :: t) = '"' :: l := by
            obtain ⟨k, v⟩ := m
            cases t with
            | nil =>
              exact ⟨escStr k.toList ++ '"' :: ':' :: ' ' :: dumpsV v, by rw [dumpsObj]⟩
            | cons m2 t3 =>
              exact ⟨(escStr k.toList ++ '"' :: ':' :: ' ' :: dumpsV v)
                  ++ ',' :: ' ' :: dumpsObj (m2 :: t3), by rw [dumpsObj]; rfl⟩
          have hrw : (dumpsObj (m :: t) ++ ['}']) ++ rest
              = '"' :: (l ++ '}' :: rest) := by
            rw [hl]
            simp
          have hrw2 : dumpsObj (m :: t) ++ '}' :: rest = '"' :: (l ++ '}' :: rest) := by
            rw [hl]
            simp
          simp [hrw2, skipWS_cons (by decide : isWS '"' = false),
            show ('{' : Char).isDigit = false from by decide]
          rw [← hrw2, hobj]
    · -- array items
      intro xs rest pre hne hsz hpre
      have hmain : parseItems (fuel + 1) (dumpsArr xs ++ ']' :: rest)
          = some (xs, rest) := by
        cases xs with
        | nil => exact absurd rfl hne
        | cons x t =>
          rw [parseItems]
          cases t with
          | nil =>
            have hx := ih1 x (']' :: rest)
              (by simp only [jsizeList] at hsz; omega)
              (numOk_cons (by decide))
            rw [show dumpsArr [x] = dumpsV x from by rw [dumpsArr], hx]
            simp [skipWS_cons (by decide : isWS ']' = false)]
          | cons y t2 =>
            have hx := ih1 x (',' :: ' ' :: (dumpsArr (y :: t2) ++ ']' :: rest))
              (by simp only [jsizeList] at hsz; have := jsize_pos y; omega)
              (numOk_cons (by decide))
            have hrest := ih2 (y :: t2) rest [' '] (by simp)
              (by simp only [jsizeList] at hsz ⊢; have := jsize_pos x; omega)
              (Or.inr rfl)
            simp only [List.singleton_append] at hrest
            have hshape : dumpsArr (x :: y :: t2) ++ ']' :: rest
                = dumpsV x ++ (',' :: ' ' :: (dumpsArr (y :: t2) ++ ']' :: rest)) := by
              rw [show dumpsArr (x :: y :: t2)
                  = dumpsV x ++ ',' :: ' ' :: dumpsArr (y :: t2) from by rw [dumpsArr]]
              simp
            rw [hshape, hx]
            simp [skipWS_cons (by decide : isWS ',' = false), hrest]
      rcases hpre with hpre | hpre
      · rw [hpre, List.nil_append]
        exact hmain
      · rw [hpre, List.singleton_append, parseItems_space]
        exact hmain
    · -- object members
      intro ms rest pre hne hsz hpre
      have hmain : parseMembers (fuel + 1) (dumpsObj ms ++ '}' :: rest)
          = some (ms, rest) := by
        cases ms with
        | nil => exact absurd rfl hne
        | cons m t =>
          obtain ⟨k, v⟩ := m
          rw [parseMembers]
          cases t with
          | nil =>
            have hv := ih1 v ('}' :: rest)
              (by simp only [jsizeMembers] at hsz; omega)
              (numOk_cons (by decide))
            have hshape : dumpsObj [(k, v)] ++ '}' :: rest
                = '"' :: (escStr k.toList ++ '"' :: ':' :: ' '
                    :: (dumpsV v ++ '}' :: rest)) := by
              rw [show dumpsObj [(k, v)]
                  = '"' :: (escStr k.toList ++ '"' :: ':' :: ' ' :: dumpsV v)
                    from by rw [dumpsObj]]
              simp
            rw [hshape, skipWS_cons (by decide)]
            have hstr : parseStrChars (escStr k.data ++ '"' :: ':' :: ' '
                :: (dumpsV v ++ '}' :: rest))
                = some (k.data, ':' :: ' ' :: (dumpsV v ++ '}' :: rest)) :=
              parseStr_escStr _ _
            simp [hstr, skipWS_cons (by decide : isWS ':' = false), parseV_space, hv,
              skipWS_cons (by decide : isWS '}' = false), mk_toList, mk_data]
          | cons m2 t2 =>
            have hv := ih1 v (',' :: ' ' :: (dumpsObj (m2 :: t2) ++ '}' :: rest))
              (by simp only [jsizeMembers] at hsz; have := jsize_pos m2.2; omega)
              (numOk_cons (by decide))
            have hrest := ih3 (m2 :: t2) rest [' '] (by simp)
              (by simp only [jsizeMembers] at hsz ⊢; have := jsize_pos v; omega)
              (Or.inr rfl)
            simp only [List.singleton_append] at hrest
            have hshape : dumpsObj ((k, v) :: m2 :: t2) ++ '}' :: rest
                = '"' :: (escStr k.toList ++ '"' :: ':' :: ' '
                    :: (dumpsV v ++ ',' :: ' ' :: (dumpsObj (m2 :: t2) ++ '}' :: rest))) := by
              rw [show dumpsObj ((k, v) :: m2 :: t2)
                  = ('"' :: (escStr k.toList ++ '"' :: ':' :: ' ' :: dumpsV v))
                      ++ ',' :: ' ' :: dumpsObj (m2 :: t2) from by rw [dumpsObj]]
              simp
            rw [hshape, skipWS_cons (by decide)]
            have hstr : parseStrChars (escStr k.data ++ '"' :: ':' :: ' '
                :: (dumpsV v ++ ',' :: ' ' :: (dumpsObj (m2 :: t2) ++ '}' :: rest)))
                = some (k.data, ':' :: ' '
                    :: (dumpsV v ++ ',' :: ' ' :: (dumpsObj (m2 :: t2) ++ '}' :: rest))) :=
              parseStr_escStr _ _
            simp [hstr, skipWS_cons (by decide : isWS ':' = false), parseV_space, hv,
              skipWS_cons (by decide : isWS ',' = false), hrest, mk_toList, mk_data]
      rcases hpre with hpre | hpre
      · rw [hpre, List.nil_append]
        exact hmain
      · rw [hpre, List.singleton_append, parseMembers_space]
        exact hmain

mutual

theorem jsize_le_len : (v : Json) → jsize v ≤ (dumpsV v).length
  | .null => by rw [dumpsV, jsize]; simp
  | .bool true => by rw [dumpsV, jsize]; simp
  | .bool false => by rw [dumpsV, jsize]; simp
  | .int i => by
      obtain ⟨d, t, hdt, _⟩ := natChars_shape i.natAbs
      rw [dumpsV, jsize, intChars]
      by_cases hi : i < 0 <;> simp [hi, hdt]
  | .str s => by rw [dumpsV, jsize]; simp
  | .arr [] => by
      rw [dumpsV, jsize, dumpsArr, jsizeList]
      simp
  | .arr (x :: t) => by
      have h := jsizeList_le (x :: t) (by simp)
      rw [dumpsV, jsize]
      simp only [List.length_cons, List.length_append, List.length_singleton]
      omega
  | .obj [] => by
      rw [dumpsV, jsize, dumpsObj, jsizeMembers]
      simp
  | .obj (m :: t) => by
      have h := jsizeMembers_le (m :: t) (by simp)
      rw [dumpsV, jsize]
      simp only [List.length_cons, List.length_append, List.length_singleton]
      omega

theorem jsizeList_le : (xs : List Json) → xs ≠ [] → jsizeList xs ≤ (dumpsArr xs).length + 1
  | [], h => absurd rfl h
  | [x], _ => by
      have h := jsize_le_len x
      rw [dumpsArr, jsizeList, jsizeList]
      omega
  | x :: y :: t, _ => by
      have h1 := jsize_le_len x
      have h2 := jsizeList_le (y :: t) (by simp)
      rw [dumpsArr, jsizeList]
      simp only [List.length_append, List.length_cons]
      omega

theorem jsizeMembers_le : (ms : List (String × Json)) → ms ≠ [] →
    jsizeMembers ms ≤ (dumpsObj ms).length + 1
  | [], h => absurd rfl h
  | [(k, v)], _ => by
      have h := jsize_le_len v
      rw [dumpsObj, jsizeMembers, jsizeMembers]
      simp only [List.length_cons, List.length_append]
      omega
  | (k, v) :: m :: t, _ => by
      have h1 := jsize_le_len v
      have h2 := jsizeMembers_le (m :: t) (by simp)
      rw [dumpsObj, jsizeMembers]
      simp only [List.length_append, List.length_cons]
      omega

end

theorem numOk_nil (v : Json) : numOk v [] := by
  cases v <;> simp [numOk, digitHeaded]

/-- The serializer/parser pair round-trips: the model of
`json.loads (json.dumps v)` recovers `v` exactly. -/
theorem loads_dumps (v : Json) : loads (dumps v) = some v := by
  have h1 := (roundtripAux ((dumpsV v).length + 1)).1 v []
    (by have := jsize_le_len v; omega) (numOk_nil v)
  rw [List.append_nil] at h1
  show loadsChars (String.mk (dumpsV v)).toList = some v
  rw [toList_mk]
  unfold loadsChars
  rw [h1]
  simp [skipWS]

/-! ### Python dict / `str()` helpers -/

/-- Python `dict.get` on an association list (dicts have unique keys; the
first binding wins). -/
def jget (d : List (String × Json)) (k : String) : Option Json :=
  match d with
  | [] => none
  | (k2, v) :: rest => if k2 = k then some v else jget rest k

mutual

/-- Python `repr` of a JSON-like value (`None`/`True`/`False`, decimal
integers, single-quoted strings, bracketed containers with `", "`/`": "`
separators).  Quote selection and escaping inside `repr` of nested strings is
simplified to plain single quotes; the claims never evaluate `repr` on
strings containing quotes. -/
def pyReprJ : Json → List Char
  | .null => ['N', 'o', 'n', 'e']
  | .bool true => ['T', 'r', 'u', 'e']
  | .bool false => ['F', 'a', 'l', 's', 'e']
  | .int i => intChars i
  | .str s => Char.ofNat 39 :: (s.toList ++ [Char.ofNat 39])
  | .arr xs => '[' :: (pyReprJList xs ++ [']'])
  | .obj ms => '{' :: (pyReprJObj ms ++ ['}'])

/-- `repr` of list elements. -/
def pyReprJList : List Json → List Char
  | [] => []
  | [x] => pyReprJ x
  | x :: y :: rest => pyReprJ x ++ ',' :: ' ' :: pyReprJList (y :: rest)

/-- `repr` of dict members. -/
def pyReprJObj : List (String × Json) → List Char
  | [] => []
  | [(k, v)] =>
      Char.ofNat 39 :: (k.toList ++ Char.ofNat 39 :: ':' :: ' ' :: pyReprJ v)
  | (k, v) :: m :: rest =>
      (Char.ofNat 39 :: (k.toList ++ Char.ofNat 39 :: ':' :: ' ' :: pyReprJ v))
        ++ ',' :: ' ' :: pyReprJObj (m :: rest)

end

/-- Python `str()` of a JSON-like value: identity on strings, `repr`
otherwise (this is exactly CPython's behavior for these types). -/
def pyStrJ : Json → List Char
  | .str s => s.toList
  | v => pyReprJ v

/-- Python f-string interpolation of an optional value (`None` when the
`dict.get` lookup missed). -/
def pyFmt : Option Json → List Char
  | none => ['N', 'o', 'n', 'e']
  | some v => pyStrJ v

/-! ### Pattern detector (`src/src/intelligence/pattern_detector.py`) -/

/-- One timeline entry, per the §3 Timeline data model: a dict with a
`type` tag, an `event_type`, an event-data dict, and a timestamp.  Fields the
source reads with `dict.get` are `Option`s; a missing `data` key behaves like
the `{}` default, so it is modelled as the empty association list. -/
structure TEntry where
  etype : Option String
  event_type : Option String
  data : List (String × Json)
  timestamp : Option String

/-- The timeline object stored in `timeline.json`: a `timeline` entry list, a
transcript, and (when present) the owning session's id. -/
structure TimelineObj where
  timeline : List TEntry
  transcript : Option String
  session_id : Option String

/-- A session dict as consumed by `PatternDetector.detect_patterns`. -/
structure Session where
  session_id : Option String
  timeline : Option TimelineObj

/-- `INTELLIGENCE_CONFIG["pattern_detection"]["min_similarity"]` (config.py). -/
def minSimilarity : ℚ := 80 / 100

/-- `INTELLIGENCE_CONFIG["pattern_detection"]["min_occurrences"]` (config.py). -/
def minOccurrences : Nat := 3

/-- `PatternDetector._extract_action_sequence`: format one `event` entry as a
symbolic action token. -/
def actionToken (et : String) (data : List (String × Json)) : List Char :=
  if et = "mouse_press" then
    ['c', 'l', 'i', 'c', 'k', '('] ++ pyFmt (jget data "x")
      ++ ',' :: pyFmt (jget data "y") ++ [')']
  else if et = "key_press" then
    ['t', 'y', 'p', 'e', '('] ++ pyStrJ ((jget data "key").getD (.str "")) ++ [')']
  else if et = "window_change" then
    ['s', 'w', 'i', 't', 'c', 'h', '_', 'w', 'i', 'n', 'd', 'o', 'w', '(']
      ++ pyStrJ ((jget data "window_title").getD (.str "")) ++ [')']
  else
    et.toList ++ '(' :: (dumpsV (.obj data) ++ [')'])

/-- `PatternDetector._extract_action_sequence`: only `event` entries
contribute tokens. -/
def extract_action_sequence (s : Session) : List String :=
  ((s.timeline.map TimelineObj.timeline).getD []).filterMap fun e =>
    if e.etype = some "event" then
      some (String.mk (actionToken (e.event_type.getD "") e.data))
    else none

/-- `PatternDetector._levenshtein_distance`: the edit-distance recurrence the
source's dynamic program fills in (lines 158-167 of pattern_detector.py;
deletion, insertion, substitution all cost 1, equal tokens cost 0). -/
def levenshtein : List String → List String → Nat
  | [], ys => ys.length
  | x :: xs, [] => (x :: xs).length
  | x :: xs, y :: ys =>
    if x = y then levenshtein xs ys
    else 1 + min (levenshtein xs (y :: ys)) (min (levenshtein (x :: xs) ys) (levenshtein xs ys))
termination_by xs ys => (xs.length, ys.length)

/-- `PatternDetector._calculate_similarity`. -/
def calculate_similarity (seq1 seq2 : List String) : ℚ :=
  if seq1 = [] ∨ seq2 = [] then 0
  else
    let d := levenshtein seq1 seq2
    let maxLen := max seq1.length seq2.length
    if maxLen = 0 then 1 else 1 - (d : ℚ) / (maxLen : ℚ)

/-- A candidate/grouped pattern dict (`confidence` is written only after
filtering; it is carried as a field initialized to 0). -/
structure Pattern where
  sessions : List String
  similarity : ℚ
  sequence : List String
  occurrences : Nat
  confidence : ℚ

/-- All ordered index pairs `i < j` of a list, in the order the source's
double loop visits them. -/
def pairsOf : List α → List (α × α)
  | [] => []
  | x :: rest => rest.map (fun y => (x, y)) ++ pairsOf rest

/-- `PatternDetector._group_patterns` inner scan: merge a candidate into the
first sufficiently similar group (extending its session list and bumping its
occurrence count), or append it as a new group. -/
def insertPattern : List Pattern → Pattern → List Pattern
  | [], p => [p]
  | g :: rest, p =>
    if calculate_similarity p.sequence g.sequence ≥ minSimilarity then
      { g with sessions := g.sessions ++ p.sessions,
               occurrences := g.occurrences + 1 } :: rest
    else g :: insertPattern rest p

/-- `PatternDetector._group_patterns`. -/
def group_patterns (ps : List Pattern) : List Pattern := ps.foldl insertPattern []

/-- `PatternDetector._calculate_confidence`. -/
def calculate_confidence (p : Pattern) : ℚ :=
  let occurrenceBoost := min (3 / 10 : ℚ) (((p.occurrences : ℤ) - (minOccurrences : ℤ)) * (1 / 10 : ℚ))
  let lengthBoost := min (1 / 5 : ℚ) ((p.sequence.length : ℚ) / 50)
  min 1 (p.similarity + occurrenceBoost + lengthBoost)

/-- Stable descending insertion by confidence (the model of Python's stable
`list.sort(key=confidence, reverse=True)`). -/
def insertByConf (x : Pattern) : List Pattern → List Pattern
  | [] => [x]
  | y :: rest =>
    if x.confidence ≥ y.confidence then x :: y :: rest else y :: insertByConf x rest

/-- Stable descending sort by confidence. -/
def sortByConf : List Pattern → List Pattern
  | [] => []
  | x :: rest => insertByConf x (sortByConf rest)

/-- `PatternDetector.detect_patterns`. -/
def detect_patterns (sessions : List Session) : List Pattern :=
  if sessions.length < 2 then []
  else
    let sequences := sessions.filterMap fun s =>
      let seq := extract_action_sequence s
      if seq = [] then none else some (s.session_id.getD "", seq)
    let patterns := (pairsOf sequences).filterMap fun pr =>
      let sim := calculate_similarity pr.1.2 pr.2.2
      if sim ≥ minSimilarity then
        some ⟨[pr.1.1, pr.2.1], sim, pr.1.2, 2, 0⟩
      else none
    let grouped := group_patterns patterns
    let filtered := grouped.filter fun p => minOccurrences ≤ p.occurrences
    let withConf := filtered.map fun p => { p with confidence := calculate_confidence p }
    sortByConf withConf

/-! ### Similarity engine facts -/

theorem levenshtein_self : ∀ s : List String, levenshtein s s = 0
  | [] => by rw [levenshtein]; rfl
  | x :: xs => by
      rw [levenshtein]
      simp [levenshtein_self xs]

theorem levenshtein_le_max : (a b : List String) →
    levenshtein a b ≤ max a.length b.length
  | [], ys => by rw [levenshtein]; exact Nat.le_max_right _ _
  | x :: xs, [] => by rw [levenshtein]; exact Nat.le_max_left _ _
  | x :: xs, y :: ys => by
      have h1 := levenshtein_le_max xs ys
      have h2 := levenshtein_le_max xs (y :: ys)
      have h3 := levenshtein_le_max (x :: xs) ys
      rw [levenshtein]
      by_cases h : x = y
      · rw [if_pos h]
        simp only [List.length_cons] at *
        omega
      · rw [if_neg h]
        simp only [List.length_cons] at *
        omega
  termination_by a b => (a.length, b.length)

theorem levenshtein_comm : (a b : List String) → levenshtein a b = levenshtein b a
  | [], [] => rfl
  | [], y :: ys => by rw [levenshtein, levenshtein]
  | x :: xs, [] => by rw [levenshtein, levenshtein]
  | x :: xs, y :: ys => by
      have h1 := levenshtein_comm xs ys
      have h2 := levenshtein_comm xs (y :: ys)
      have h3 := levenshtein_comm (x :: xs) ys
      rw [levenshtein]
      conv_rhs => rw [levenshtein]
      by_cases h : x = y
      · subst h
        simp [h1]
      · have h' : ¬ y = x := fun hyx => h hyx.symm
        simp only [h, h', if_false, h1, h2, h3]
        omega
  termination_by a b => (a.length, b.length)

theorem calculate_similarity_self {s : List String} (h : s ≠ []) :
    calculate_similarity s s = 1 := by
  unfold calculate_similarity
  simp only [h, or_self, if_false, levenshtein_self, max_self]
  have hlen : s.length ≠ 0 := by
    cases s with
    | nil => exact absurd rfl h
    | cons a t => simp
  simp [hlen]

theorem calculate_similarity_nil_right (s : List String) :
    calculate_similarity s [] = 0 := by
  unfold calculate_similarity
  simp

theorem calculate_similarity_nil_left (s : List String) :
    calculate_similarity [] s = 0 := by
  unfold calculate_similarity
  simp

theorem calculate_similarity_bounds (a b : List String) :
    0 ≤ calculate_similarity a b ∧ calculate_similarity a b ≤ 1 := by
  unfold calculate_similarity
  by_cases hab : a = [] ∨ b = []
  · simp [hab]
  · push_neg at hab
    obtain ⟨ha, hb⟩ := hab
    have hlen : a.length ≠ 0 := by
      cases a with
      | nil => exact absurd rfl ha
      | cons x t => simp
    have hpos : 0 < max a.length b.length :=
      lt_of_lt_of_le (Nat.pos_of_ne_zero hlen) (le_max_left _ _)
    have hmaxne : max a.length b.length ≠ 0 := Nat.pos_iff_ne_zero.mp hpos
    have hmaxQ : (0 : ℚ) < ((max a.length b.length : Nat) : ℚ) := by
      exact_mod_cast hpos
    have hd0 : (0 : ℚ) ≤ (levenshtein a b : ℚ) := by positivity
    have hdle : (levenshtein a b : ℚ) ≤ ((max a.length b.length : Nat) : ℚ) := by
      exact_mod_cast levenshtein_le_max a b
    have hfrac0 : (0 : ℚ) ≤ (levenshtein a b : ℚ) / ((max a.length b.length : Nat) : ℚ) :=
      div_nonneg hd0 hmaxQ.le
    have hfrac1 : (levenshtein a b : ℚ) / ((max a.length b.length : Nat) : ℚ) ≤ 1 :=
      (div_le_one hmaxQ).mpr hdle
    rw [if_neg (by simp [ha, hb])]
    simp only [if_neg hmaxne]
    constructor <;> linarith

/-- Similarity is symmetric (pairwise hypotheses in either order coincide). -/
theorem calculate_similarity_comm (a b : List String) :
    calculate_similarity a b = calculate_similarity b a := by
  by_cases hab : a = [] ∨ b = []
  · have hab2 : b = [] ∨ a = [] := hab.symm
    unfold calculate_similarity
    simp [hab, hab2]
  · have hab2 : ¬ (b = [] ∨ a = []) := fun hc => hab hc.symm
    unfold calculate_similarity
    rw [if_neg hab, if_neg hab2, levenshtein_comm, max_comm]

/-- C7: for every non-empty sequence `s`, `similarity(s, s) == 1.0`; for every
sequence `s` (including the empty one), `similarity(s, []) == 0.0` and
`similarity([], []) == 0.0`; and for all `a`, `b` the similarity returned by
`PatternDetector._calculate_similarity` lies in `[0, 1]`. -/
theorem C7_similarity_properties :
    (∀ s : List String, s ≠ [] → calculate_similarity s s = 1)
    ∧ (∀ s : List String, calculate_similarity s [] = 0)
    ∧ calculate_similarity ([] : List String) [] = 0
    ∧ (∀ a b : List String,
        0 ≤ calculate_similarity a b ∧ calculate_similarity a b ≤ 1) :=
  ⟨fun _ h => calculate_similarity_self h,
   calculate_similarity_nil_right,
   calculate_similarity_nil_right [],
   calculate_similarity_bounds⟩

/-- Witness for C7 at a concrete non-empty sequence. -/
theorem C7_similarity_properties_witness :
    calculate_similarity ["a"] ["a"] = 1 :=
  C7_similarity_properties.1 ["a"] (by simp)

/-! ### C2: three pairwise-similar sessions -/

/-- General form: on three sessions whose extracted sequences are non-empty
and pairwise similar at or above the 0.80 threshold, `detect_patterns`
returns exactly one pattern whose `occurrences` count is 4 (2 for the first
pair plus 1 for each of the two merged pairs) and whose session list is the
concatenation of the three pairs' session-id lists (with duplicates). -/
theorem detect_patterns_three (s1 s2 s3 : Session) (q1 q2 q3 : List String)
    (hq1 : extract_action_sequence s1 = q1) (h1 : q1 ≠ [])
    (hq2 : extract_action_sequence s2 = q2) (h2 : q2 ≠ [])
    (hq3 : extract_action_sequence s3 = q3) (h3 : q3 ≠ [])
    (h12 : minSimilarity ≤ calculate_similarity q1 q2)
    (h13 : minSimilarity ≤ calculate_similarity q1 q3)
    (h23 : minSimilarity ≤ calculate_similarity q2 q3) :
    detect_patterns [s1, s2, s3]
      = [{ sessions := [s1.session_id.getD "", s2.session_id.getD "",
                        s1.session_id.getD "", s3.session_id.getD "",
                        s2.session_id.getD "", s3.session_id.getD ""],
           similarity := calculate_similarity q1 q2,
           sequence := q1,
           occurrences := 4,
           confidence := calculate_confidence
             { sessions := [s1.session_id.getD "", s2.session_id.getD "",
                            s1.session_id.getD "", s3.session_id.getD "",
                            s2.session_id.getD "", s3.session_id.getD ""],
               similarity := calculate_similarity q1 q2,
               sequence := q1,
               occurrences := 4,
               confidence := 0 } }] := by
  have hself1 : minSimilarity ≤ calculate_similarity q1 q1 := by
    rw [calculate_similarity_self h1]
    norm_num [minSimilarity]
  have h21 : minSimilarity ≤ calculate_similarity q2 q1 := by
    rw [calculate_similarity_comm]
    exact h12
  unfold detect_patterns
  rw [if_neg (by norm_num)]
  have hseq : [s1, s2, s3].filterMap (fun s =>
      let seq := extract_action_sequence s
      if seq = [] then none else some (s.session_id.getD "", seq))
      = [(s1.session_id.getD "", q1), (s2.session_id.getD "", q2),
         (s3.session_id.getD "", q3)] := by
    simp [hq1, hq2, hq3, h1, h2, h3]
  have hpairs : pairsOf [(s1.session_id.getD "", q1), (s2.session_id.getD "", q2),
      (s3.session_id.getD "", q3)]
      = [((s1.session_id.getD "", q1), (s2.session_id.getD "", q2)),
         ((s1.session_id.getD "", q1), (s3.session_id.getD "", q3)),
         ((s2.session_id.getD "", q2), (s3.session_id.getD "", q3))] := by
    simp [pairsOf]
  simp only [hseq, hpairs, List.filterMap_cons, List.filterMap_nil, ge_iff_le,
    h12, h13, h23, if_true, group_patterns, List.foldl_cons, List.foldl_nil,
    insertPattern, hself1, h21, List.filter_cons, List.filter_nil,
    (show minOccurrences ≤ 4 by norm_num [minOccurrences]),
    List.map_cons, List.map_nil, sortByConf, insertByConf]
  norm_num

/-- C2 (amended): for every input of exactly 3 sessions whose extracted
sequences are non-empty and pairwise similar with similarity ≥ 0.8, with
`min_similarity = 0.80` and `min_occurrences = 3`,
`PatternDetector.detect_patterns` returns exactly one pattern, and that
pattern has `occurrences == 4` (the first candidate pair starts at 2 and the
two remaining pairs each merge in, adding 1), with its `sessions` field being
the concatenation of the three pairs' session-id lists — duplicates included,
not the de-duplicated union. -/
theorem C2_detect_patterns_three_sessions (s1 s2 s3 : Session)
    (q1 q2 q3 : List String)
    (hq1 : extract_action_sequence s1 = q1) (h1 : q1 ≠ [])
    (hq2 : extract_action_sequence s2 = q2) (h2 : q2 ≠ [])
    (hq3 : extract_action_sequence s3 = q3) (h3 : q3 ≠ [])
    (h12 : minSimilarity ≤ calculate_similarity q1 q2)
    (h13 : minSimilarity ≤ calculate_similarity q1 q3)
    (h23 : minSimilarity ≤ calculate_similarity q2 q3) :
    (detect_patterns [s1, s2, s3]).map Pattern.occurrences = [4]
    ∧ (detect_patterns [s1, s2, s3]).map Pattern.sessions
        = [[s1.session_id.getD "", s2.session_id.getD "",
            s1.session_id.getD "", s3.session_id.getD "",
            s2.session_id.getD "", s3.session_id.getD ""]] := by
  rw [detect_patterns_three s1 s2 s3 q1 q2 q3 hq1 h1 hq2 h2 hq3 h3 h12 h13 h23]
  simp

/-- A concrete session with a single `mouse_press` event. -/
def clickSession (sid : String) : Session :=
  { session_id := some sid
    timeline := some
      { timeline := [{ etype := some "event"
                       event_type := some "mouse_press"
                       data := [("x", Json.int 1), ("y", Json.int 2)]
                       timestamp := none }]
        transcript := none
        session_id := none } }

/-- The symbolic token extracted from `clickSession`. -/
def clickTok : String :=
  String.mk (actionToken "mouse_press" [("x", Json.int 1), ("y", Json.int 2)])

theorem extract_clickSession (sid : String) :
    extract_action_sequence (clickSession sid) = [clickTok] := by
  simp [extract_action_sequence, clickSession, clickTok]

theorem clickTok_sim : minSimilarity ≤ calculate_similarity [clickTok] [clickTok] := by
  rw [calculate_similarity_self (by simp)]
  norm_num [minSimilarity]

/-- Counterexample for C2 as stated: on three sessions with identical
one-event timelines (pairwise similarity 1 ≥ 0.8), exactly one pattern is
returned but its `occurrences` is 4, not 3, and its `sessions` list contains
each session id twice rather than being a duplicate-free union. -/
theorem C2_counterexample :
    (detect_patterns [clickSession "s1", clickSession "s2", clickSession "s3"]).map
        Pattern.occurrences = [4]
    ∧ (detect_patterns [clickSession "s1", clickSession "s2", clickSession "s3"]).map
        Pattern.sessions = [["s1", "s2", "s1", "s3", "s2", "s3"]]
    ∧ (detect_patterns [clickSession "s1", clickSession "s2", clickSession "s3"]).map
        Pattern.occurrences ≠ [3] := by
  have h := detect_patterns_three (clickSession "s1") (clickSession "s2")
    (clickSession "s3") [clickTok] [clickTok] [clickTok]
    (extract_clickSession _) (by simp) (extract_clickSession _) (by simp)
    (extract_clickSession _) (by simp) clickTok_sim clickTok_sim clickTok_sim
  rw [h]
  simp [clickSession]

/-- Witness for C2 (amended) at the concrete three-session input. -/
theorem C2_detect_patterns_three_sessions_witness :
    (detect_patterns [clickSession "s1", clickSession "s2", clickSession "s3"]).map
        Pattern.occurrences = [4]
    ∧ (detect_patterns [clickSession "s1", clickSession "s2", clickSession "s3"]).map
        Pattern.sessions = [["s1", "s2", "s1", "s3", "s2", "s3"]] := by
  have h := C2_detect_patterns_three_sessions (clickSession "s1") (clickSession "s2")
    (clickSession "s3") [clickTok] [clickTok] [clickTok]
    (extract_clickSession _) (by simp) (extract_clickSession _) (by simp)
    (extract_clickSession _) (by simp) clickTok_sim clickTok_sim clickTok_sim
  simpa [clickSession] using h

/-! ### Structured workflow executor (`src/src/automation/executor.py`) -/

/-- A workflow step dict as read by `WorkflowExecutor.execute` (each field
accessed with `dict.get` and a default).  `step_number` is kept raw (any JSON
value); `target`/`value`/`verification` are the strings validated workflows
carry. -/
structure ExecStep where
  step_number : Option Json
  action_type : Option String
  target : Option String
  value : Option String
  wait_after : Option Int
  verification : Option String

/-- One `step_result` record (the `timestamp` field, wall-clock time, is
outside the embedding). -/
structure StepRes where
  step_number : Json
  action_type : String
  target : String
  value : String
  success : Bool
  error : Option String

/-- The `execution_result` dict (timestamps and `execution_time`, wall-clock
values, are outside the embedding). -/
structure ExecResult where
  workflow_name : String
  workflow_id : Option Int
  success : Bool
  steps_completed : Nat
  steps_total : Nat
  steps : List StepRes
  error_message : Option String

/-- The workflow dict passed to `execute`. -/
structure EWorkflow where
  workflow_name : Option String
  id : Option Int
  steps : List ExecStep

/-- Outcome of dispatching one registered action handler: the bool it
returns, or the exception it raises. -/
inductive HandlerOutcome where
  | ok (b : Bool)
  | exn (msg : String)
deriving DecidableEq

/-- The keys of `self.action_handlers` (executor.py lines 26-53): the closed
set of registered action types. -/
def knownActionTypes : List String :=
  ["click", "double_click", "right_click", "type", "press_key", "hotkey",
   "scroll", "move_mouse", "launch_app", "close_app", "switch_window",
   "navigate", "click_element", "fill_form", "select_dropdown",
   "open_file", "save_file", "move_file", "rename_file"]

/-- The step loop of `WorkflowExecutor.execute` (lines 74-134): dispatch the
handler, run verification only when the handler reported success and a
verification hint is present, record the step result, and stop on the first
failed step.  `behavior` is the external pyautogui/selenium-backed handler
body; `verify` is the external verifier's comparison for the step at loop
index `i` (before/after screenshots abstracted into the index). -/
def execSteps (behavior : String → String → String → HandlerOutcome)
    (verify : Nat → String → Bool) : List ExecStep → Nat → List StepRes
  | [], _ => []
  | step :: rest, i =>
    let stepNumber := step.step_number.getD (Json.int i)
    let actionType := step.action_type.getD ""
    let target := step.target.getD ""
    let value := step.value.getD ""
    let verification := step.verification.getD ""
    let handled : Bool × Option String :=
      if actionType ∈ knownActionTypes then
        match behavior actionType target value with
        | .ok b => (b, none)
        | .exn m => (false, some m)
      else (false, some ("Unknown action type: " ++ actionType))
    let success :=
      if handled.1 = true ∧ verification ≠ "" ∧ verify i verification = false
      then false else handled.1
    let res : StepRes := ⟨stepNumber, actionType, target, value, success, handled.2⟩
    if success then res :: execSteps behavior verify rest (i + 1) else [res]

/-- `WorkflowExecutor.execute`. -/
def execute (behavior : String → String → String → HandlerOutcome)
    (verify : Nat → String → Bool) (wf : EWorkflow) : ExecResult :=
  let results := execSteps behavior verify wf.steps 1
  let overall := results.all StepRes.success
  { workflow_name := wf.workflow_name.getD "Unknown"
    workflow_id := wf.id
    success := overall
    steps_completed := (results.filter StepRes.success).length
    steps_total := wf.steps.length
    steps := results
    error_message :=
      match results.getLast? with
      | some r => if overall then none else r.error
      | none => none }

/-- C1: for every workflow whose steps list is a click-step followed by a
type-step, if the click handler returns `True`, the type handler returns
`False`, and the first step's verification (when present) passes, then
`WorkflowExecutor.execute` returns `steps_completed == 1`,
`steps_total == 2`, `success == false`, and exactly the two steps were
dispatched (stop on first failure dispatches nothing after the failing
step). -/
theorem C1_executor_stop_on_failure
    (behavior : String → String → String → HandlerOutcome)
    (verify : Nat → String → Bool) (s1 s2 : ExecStep)
    (wfname : Option String) (wid : Option Int)
    (ha1 : s1.action_type = some "click") (ha2 : s2.action_type = some "type")
    (hb1 : behavior "click" (s1.target.getD "") (s1.value.getD "") = .ok true)
    (hb2 : behavior "type" (s2.target.getD "") (s2.value.getD "") = .ok false)
    (hv1 : s1.verification.getD "" = "" ∨ verify 1 (s1.verification.getD "") = true) :
    (execute behavior verify ⟨wfname, wid, [s1, s2]⟩).steps_completed = 1
    ∧ (execute behavior verify ⟨wfname, wid, [s1, s2]⟩).steps_total = 2
    ∧ (execute behavior verify ⟨wfname, wid, [s1, s2]⟩).success = false
    ∧ ((execute behavior verify ⟨wfname, wid, [s1, s2]⟩).steps.map
        StepRes.action_type) = ["click", "type"] := by
  have hk1 : "click" ∈ knownActionTypes := by decide
  have hk2 : "type" ∈ knownActionTypes := by decide
  have hstep : execSteps behavior verify [s1, s2] 1
      = [⟨s1.step_number.getD (Json.int 1), "click", s1.target.getD "",
          s1.value.getD "", true, none⟩,
         ⟨s2.step_number.getD (Json.int 2), "type", s2.target.getD "",
          s2.value.getD "", false, none⟩] := by
    rcases hv1 with hv | hv <;>
      simp [execSteps, ha1, ha2, hk1, hk2, hb1, hb2, hv]
  unfold execute
  rw [hstep]
  simp [List.getLast?]

/-- Witness for C1 at concrete steps and handler behavior. -/
theorem C1_executor_stop_on_failure_witness :
    (execute (fun a _ _ => if a = "click" then .ok true else .ok false)
        (fun _ _ => true)
        ⟨some "wf", none,
         [⟨none, some "click", some "10,10", none, none, none⟩,
          ⟨none, some "type", none, some "x", none, none⟩]⟩).steps_completed = 1
    ∧ (execute (fun a _ _ => if a = "click" then .ok true else .ok false)
        (fun _ _ => true)
        ⟨some "wf", none,
         [⟨none, some "click", some "10,10", none, none, none⟩,
          ⟨none, some "type", none, some "x", none, none⟩]⟩).steps_total = 2
    ∧ (execute (fun a _ _ => if a = "click" then .ok true else .ok false)
        (fun _ _ => true)
        ⟨some "wf", none,
         [⟨none, some "click", some "10,10", none, none, none⟩,
          ⟨none, some "type", none, some "x", none, none⟩]⟩).success = false
    ∧ ((execute (fun a _ _ => if a = "click" then .ok true else .ok false)
        (fun _ _ => true)
        ⟨some "wf", none,
         [⟨none, some "click", some "10,10", none, none, none⟩,
          ⟨none, some "type", none, some "x", none, none⟩]⟩).steps.map
        StepRes.action_type) = ["click", "type"] :=
  C1_executor_stop_on_failure (fun a _ _ => if a = "click" then .ok true else .ok false)
    (fun _ _ => true)
    ⟨none, some "click", some "10,10", none, none, none⟩
    ⟨none, some "type", none, some "x", none, none⟩
    (some "wf") none rfl rfl rfl rfl (Or.inl rfl)

/-! ### GUI executor (`src/automation_executor.py`) -/

/-- Observable trace of the GUI executor's `execute_workflow`: the callback
messages, the indices of actions dispatched to `_execute_action`, and
whether the loop broke on a cleared `is_running` flag. -/
structure GuiTrace where
  messages : List String
  executed : List Nat
  stopped : Bool

/-- The action loop of `execute_workflow` (automation_executor.py lines
84-105): poll `is_running` at each step boundary (`running i` is the flag
value read at iteration `i`), dispatch the action — an exception inside
`_execute_action` is caught, reported, and the loop continues — and break
with the stop message when the flag reads false.  The pause busy-wait only
delays terminating runs and is observationally a no-op in this pure model. -/
def guiSteps (running : Nat → Bool) (actionError : Nat → Option String)
    (total : Nat) : List String → Nat → GuiTrace
  | [], _ => ⟨[], [], false⟩
  | a :: rest, i =>
    if running i = false then ⟨["⏹ Execution stopped by user"], [], true⟩
    else
      let head := String.mk ('[' :: natChars (i + 1) ++ '/' :: natChars total
        ++ ']' :: ' ' :: a.toList)
      let errMsgs :=
        match actionError i with
        | none => []
        | some e => ["   ⚠️ Error: " ++ e]
      let t := guiSteps running actionError total rest (i + 1)
      ⟨head :: errMsgs ++ t.messages, i :: t.executed, t.stopped⟩

/-- `WorkflowExecutor.execute_workflow` (the GUI executor).  The Python
function returns `None` on every path (bare `return` statements and falling
off the end); the second component is that return value, typed against the
execution-result record a caller would need. -/
def execute_workflow (available : Bool) (running : Nat → Bool)
    (actionError : Nat → Option String) (desc : Option String)
    (actions : List String) : GuiTrace × Option ExecResult :=
  if available = false then
    (⟨["❌ Automation unavailable (pyautogui not installed)"], [], false⟩, none)
  else
    let startMsgs := ["🚀 Starting: " ++ desc.getD "Unknown workflow", ""]
    if actions = [] then
      (⟨startMsgs ++ ["⚠️ No actions defined in workflow"], [], false⟩, none)
    else
      let t := guiSteps running actionError actions.length actions 0
      let finishMsgs :=
        if t.stopped = false ∧ running actions.length = true then
          ["", "✅ Workflow completed successfully!"]
        else []
      (⟨startMsgs ++ t.messages ++ finishMsgs, t.executed, t.stopped⟩, none)

theorem guiSteps_stop (running : Nat → Bool) (actionError : Nat → Option String)
    (total : Nat) : ∀ (acts : List String) (j k : Nat), k < acts.length →
    (∀ i, i < k → running (j + i) = true) → running (j + k) = false →
    (guiSteps running actionError total acts j).executed = (List.range k).map (j + ·)
    ∧ (guiSteps running actionError total acts j).stopped = true
    ∧ "⏹ Execution stopped by user" ∈ (guiSteps running actionError total acts j).messages := by
  intro acts
  induction acts with
  | nil =>
    intro j k hk _ _
    exact absurd hk (by simp)
  | cons a rest ih =>
    intro j k hk hrun hstop
    cases k with
    | zero =>
      rw [guiSteps]
      simp only [Nat.add_zero] at hstop
      simp [hstop]
    | succ k2 =>
      have hj : running j = true := by
        have := hrun 0 (Nat.succ_pos _)
        simpa using this
      rw [guiSteps]
      simp only [hj, Bool.true_eq_false, if_false]
      have ihr := ih (j + 1) k2 (by simpa using hk)
        (fun i hi => by
          have := hrun (i + 1) (by omega)
          rwa [show j + (i + 1) = j + 1 + i by omega] at this)
        (by rwa [show j + 1 + k2 = j + (k2 + 1) by omega])
      refine ⟨?_, ihr.2.1, ?_⟩
      · rw [ihr.1, List.range_succ_eq_map, List.map_cons, List.map_map]
        congr 1
        exact List.map_congr_left fun i _ => by simp [Function.comp]; omega
      · exact List.mem_cons_of_mem _ (List.mem_append_right _ ihr.2.2)

/-- C8 (amended): an external stop request is only supported by the GUI
executor; when its `is_running` flag reads false at step boundary `k` (and
no earlier), `execute_workflow` dispatches exactly the actions before `k`,
emits the stop message, and returns `None` — no execution result (and hence
no `success`/`error_message` fields) is produced.  The structured executor
(`src/src/automation/executor.py`) exposes no stop request at all. -/
theorem C8_gui_stop_no_result (running : Nat → Bool)
    (actionError : Nat → Option String) (desc : Option String)
    (actions : List String) (k : Nat) (hk : k < actions.length)
    (hrun : ∀ i, i < k → running i = true) (hstop : running k = false) :
    (execute_workflow true running actionError desc actions).2 = none
    ∧ (execute_workflow true running actionError desc actions).1.executed
        = List.range k
    ∧ "⏹ Execution stopped by user"
        ∈ (execute_workflow true running actionError desc actions).1.messages := by
  have hne : actions ≠ [] := by
    intro h
    rw [h] at hk
    exact absurd hk (by simp)
  have hg := guiSteps_stop running actionError actions.length actions 0 k hk
    (fun i hi => by simpa using hrun i hi) (by simpa using hstop)
  unfold execute_workflow
  rw [if_neg (by simp), if_neg hne]
  refine ⟨rfl, ?_, ?_⟩
  · show (guiSteps running actionError actions.length actions 0).executed = List.range k
    rw [hg.1]
    simp
  · exact List.mem_append_left _ (List.mem_append_right _ hg.2.2)

/-- Witness for C8 (amended) at a concrete stop-at-step-1 schedule. -/
theorem C8_gui_stop_no_result_witness :
    (execute_workflow true (fun i => decide (i < 1)) (fun _ => none) (some "wf")
        ["open excel", "enter data"]).2 = none
    ∧ (execute_workflow true (fun i => decide (i < 1)) (fun _ => none) (some "wf")
        ["open excel", "enter data"]).1.executed = List.range 1
    ∧ "⏹ Execution stopped by user"
        ∈ (execute_workflow true (fun i => decide (i < 1)) (fun _ => none) (some "wf")
            ["open excel", "enter data"]).1.messages :=
  C8_gui_stop_no_result (fun i => decide (i < 1)) (fun _ => none) (some "wf")
    ["open excel", "enter data"] 1 (by simp) (fun i hi => by simp; omega) (by simp)

/-- Counterexample for C8 as stated: a run stopped mid-way with no handler
failure ends without dispatching further actions, but the function's return
value is `None` — there is no execution result carrying `success == false`
and `errorMessage == null`. -/
theorem C8_counterexample :
    (execute_workflow true (fun i => decide (i < 1)) (fun _ => none) (some "wf")
        ["open excel", "enter data"]).2 = none
    ∧ (execute_workflow true (fun i => decide (i < 1)) (fun _ => none) (some "wf")
        ["open excel", "enter data"]).1.executed = [0]
    ∧ (execute_workflow true (fun i => decide (i < 1)) (fun _ => none) (some "wf")
        ["open excel", "enter data"]).1.stopped = true := by
  refine ⟨rfl, ?_, rfl⟩
  rfl

/-! ### Python values for the generator pipeline

The LLM-output path (`llm_interface.generate_json` → `workflow_generator`)
handles plain Python values: parsed JSON plus Python `float` literals such as
the `0.5`/`0.3` confidences in the fallback dicts.  `PyVal` extends the JSON
domain with exact-rational floats. -/

inductive PyVal where
  | null : PyVal
  | bool : Bool → PyVal
  | int : Int → PyVal
  | float : ℚ → PyVal
  | str : String → PyVal
  | arr : List PyVal → PyVal
  | obj : List (String × PyVal) → PyVal

mutual

/-- Values returned by `json.loads` viewed as Python values. -/
def jsonToPy : Json → PyVal
  | .null => .null
  | .bool b => .bool b
  | .int i => .int i
  | .str s => .str s
  | .arr xs => .arr (jsonToPyList xs)
  | .obj ms => .obj (jsonToPyObj ms)

/-- List part of `jsonToPy`. -/
def jsonToPyList : List Json → List PyVal
  | [] => []
  | x :: xs => jsonToPy x :: jsonToPyList xs

/-- Object part of `jsonToPy`. -/
def jsonToPyObj : List (String × Json) → List (String × PyVal)
  | [] => []
  | (k, v) :: ms => (k, jsonToPy v) :: jsonToPyObj ms

end

/-- `dict.get` over Python dict values. -/
def vget (d : List (String × PyVal)) (k : String) : Option PyVal :=
  match d with
  | [] => none
  | (k2, v) :: rest => if k2 = k then some v else vget rest k

/-- Lower-case a character list (`str.lower`, ASCII range). -/
def lowerChars (cs : List Char) : List Char := cs.map Char.toLower

/-- `str.strip()`: drop leading and trailing whitespace. -/
def pyStrip (xs : List Char) : List Char :=
  ((xs.dropWhile isWS).reverse.dropWhile isWS).reverse

/-- Is `p` a prefix of `xs`? -/
def isPrefixL : List Char → List Char → Bool
  | [], _ => true
  | _ :: _, [] => false
  | a :: as, b :: bs => a = b && isPrefixL as bs

/-- Python's substring containment `sep in xs` (for non-empty `sep`). -/
def hasSub (sep : List Char) : List Char → Bool
  | [] => isPrefixL sep []
  | c :: rest => isPrefixL sep (c :: rest) || hasSub sep rest

/-- Fuel-driven scanner behind `str.split(sep)`. -/
def splitAuxF (sep : List Char) : Nat → List Char → List Char → List (List Char)
  | 0, xs, acc => [acc.reverse ++ xs]
  | f + 1, xs, acc =>
    if isPrefixL sep xs then acc.reverse :: splitAuxF sep f (xs.drop sep.length) []
    else
      match xs with
      | [] => [acc.reverse]
      | c :: rest => splitAuxF sep f rest (c :: acc)

/-- Python `str.split(sep)` for a non-empty separator. -/
def pySplit (sep xs : List Char) : List (List Char) :=
  splitAuxF sep (xs.length + 1) xs []

/-- Parse a digit run of a decimal literal into (value, digit count, rest). -/
def decDigits : List Char → Nat → Nat → Nat × Nat × List Char
  | [], acc, k => (acc, k, [])
  | c :: cs, acc, k =>
    if c.isDigit then decDigits cs (acc * 10 + digVal c) (k + 1)
    else (acc, k, c :: cs)

/-- Python `str.split()` (no argument): maximal whitespace-separated tokens. -/
def pySplitWS : List Char → List (List Char)
  | [] => []
  | c :: rest =>
    if isWS c then pySplitWS rest
    else
      match pySplitWS rest, rest with
      | [], _ => [[c]]
      | _ :: _, [] => [[c]]
      | t :: ts, c2 :: _ => if isWS c2 then [c] :: t :: ts else (c :: t) :: ts

/-- Python `float()` on a string: optional sign, decimal digits with an
optional fraction part (scientific notation, which the repository never
produces, is out of the model). -/
def pyFloatStr (cs : List Char) : Option ℚ :=
  let s := pyStrip cs
  let sgn : Bool × List Char :=
    match s with
    | '-' :: t => (true, t)
    | '+' :: t => (false, t)
    | t => (false, t)
  let ipr := decDigits sgn.2 0 0
  match ipr.2.2 with
  | [] =>
    if ipr.2.1 = 0 then none
    else some (if sgn.1 then -(ipr.1 : ℚ) else (ipr.1 : ℚ))
  | '.' :: fr =>
    let fpr := decDigits fr 0 0
    if fpr.2.2 = [] ∧ ipr.2.1 + fpr.2.1 ≠ 0 then
      let q : ℚ := (ipr.1 : ℚ) + (fpr.1 : ℚ) / ((10 : ℚ) ^ fpr.2.1)
      some (if sgn.1 then -q else q)
    else none
  | _ => none

/-- Python `int()` truncation toward zero of a float. -/
def pyTrunc (q : ℚ) : Int := if q < 0 then -((-q).floor) else q.floor

/-- Python `float(x)`: succeeds on numbers, bools, and numeric strings;
raises (`none`) otherwise. -/
def pyFloat : PyVal → Option ℚ
  | .int i => some (i : ℚ)
  | .float q => some q
  | .bool true => some 1
  | .bool false => some 0
  | .str s => pyFloatStr s.toList
  | _ => none

/-- Python `int(x)`: succeeds on numbers, bools, and integer strings. -/
def pyInt : PyVal → Option Int
  | .int i => some i
  | .float q => some (pyTrunc q)
  | .bool true => some 1
  | .bool false => some 0
  | .str s =>
    let t := pyStrip s.toList
    let sgn : Bool × List Char :=
      match t with
      | '-' :: r => (true, r)
      | '+' :: r => (false, r)
      | r => (false, r)
    let pr := decDigits sgn.2 0 0
    if pr.2.2 = [] ∧ pr.2.1 ≠ 0 then
      some (if sgn.1 then -(pr.1 : Int) else (pr.1 : Int))
    else none
  | _ => none

/-- Crude decimal-free rendering of a rational (only reachable through
`str()` of a Python float, which the claims never evaluate; Python's
shortest-repr float printing is outside the embedding). -/
def ratChars (q : ℚ) : List Char :=
  intChars q.num ++ '/' :: natChars q.den

mutual

/-- Python `repr` over `PyVal` (see `pyReprJ`). -/
def pyReprV : PyVal → List Char
  | .null => ['N', 'o', 'n', 'e']
  | .bool true => ['T', 'r', 'u', 'e']
  | .bool false => ['F', 'a', 'l', 's', 'e']
  | .int i => intChars i
  | .float q => ratChars q
  | .str s => Char.ofNat 39 :: (s.toList ++ [Char.ofNat 39])
  | .arr xs => '[' :: (pyReprVList xs ++ [']'])
  | .obj ms => '{' :: (pyReprVObj ms ++ ['}'])

/-- `repr` of list elements. -/
def pyReprVList : List PyVal → List Char
  | [] => []
  | [x] => pyReprV x
  | x :: y :: rest => pyReprV x ++ ',' :: ' ' :: pyReprVList (y :: rest)

/-- `repr` of dict members. -/
def pyReprVObj : List (String × PyVal) → List Char
  | [] => []
  | [(k, v)] =>
      Char.ofNat 39 :: (k.toList ++ Char.ofNat 39 :: ':' :: ' ' :: pyReprV v)
  | (k, v) :: m :: rest =>
      (Char.ofNat 39 :: (k.toList ++ Char.ofNat 39 :: ':' :: ' ' :: pyReprV v))
        ++ ',' :: ' ' :: pyReprVObj (m :: rest)

end

/-- Python `str()` over `PyVal`. -/
def pyStrV : PyVal → List Char
  | .str s => s.toList
  | v => pyReprV v

/-- Python `len()` (raises on non-sized values). -/
def pyLen : PyVal → Option Nat
  | .str s => some s.length
  | .arr xs => some xs.length
  | .obj ms => some ms.length
  | _ => none

/-! ### LLM JSON extraction (`src/src/intelligence/llm_interface.py`) -/

/-- The backtick character. -/
def btick : Char := Char.ofNat 96

/-- The generic code fence. -/
def fence : List Char := [btick, btick, btick]

/-- The json-tagged code fence. -/
def fenceJson : List Char := [btick, btick, btick, 'j', 's', 'o', 'n']

/-- `LLMInterface._generate_fallback_json`. -/
def llmFallbackJson : PyVal :=
  .obj [("workflow_name", .str "Recorded Workflow"),
        ("description",
         .str "Workflow captured from user actions (LLM unavailable for analysis)"),
        ("confidence", .float (3 / 10)),
        ("category", .str "general"),
        ("estimated_time_manual", .str "60 seconds"),
        ("estimated_time_auto", .str "30 seconds"),
        ("steps", .arr []),
        ("variables", .arr []),
        ("triggers", .arr [.str "manual"])]

/-- The JSON-extraction step of `LLMInterface.generate_json` (lines 102-118):
cut out a ```json fenced block if one is present, else the first generic
fenced block, then `json.loads` the result; any parse failure falls back to
`_generate_fallback_json`.  `responseText` is the external text generator's
reply.  There is no brace-substring strategy in the source. -/
def extractText (responseText : List Char) : List Char :=
  if hasSub fenceJson responseText then
    pyStrip ((pySplit fence ((pySplit fenceJson responseText).getD 1 [])).headD [])
  else if hasSub fence responseText then
    pyStrip ((pySplit fence ((pySplit fence responseText).getD 1 [])).headD [])
  else responseText

/-- The parse step of `generate_json`. -/
def generate_json (responseText : List Char) : PyVal :=
  match loadsChars (extractText responseText) with
  | some j => jsonToPy j
  | none => llmFallbackJson

/-! ### Workflow generator (`src/src/intelligence/workflow_generator.py`) -/

/-- A step after `_validate_workflow`: `step_number`/`action_type` are kept
raw, `target`/`value`/`verification` are `str()`-coerced, `wait_after` is
`int()`-coerced. -/
structure VStep where
  step_number : PyVal
  action_type : PyVal
  target : String
  value : String
  wait_after : Int
  verification : String

/-- The dict produced by `_validate_workflow`. -/
structure VWorkflow where
  workflow_name : PyVal
  description : PyVal
  confidence : ℚ
  category : PyVal
  estimated_time_manual : PyVal
  estimated_time_auto : PyVal
  steps : List VStep
  wvariables : PyVal
  triggers : PyVal
  estimated_savings : Int

/-- `WorkflowGenerator._parse_time`: `none` models the AttributeError raised
by `.lower()` on a non-string (caught by the caller's `try`); parse failures
inside the function itself fall through to 0. -/
def parse_time : PyVal → Option Int
  | .str s =>
    let t := pyStrip (lowerChars s.toList)
    let firstNum := (pySplitWS t).head?.bind pyFloatStr
    some (
      if hasSub ['m', 'i', 'n', 'u', 't', 'e'] t || hasSub ['m', 'i', 'n'] t then
        match firstNum with
        | some q => pyTrunc (q * 60)
        | none => 0
      else if hasSub ['s', 'e', 'c', 'o', 'n', 'd'] t || hasSub ['s', 'e', 'c'] t then
        match firstNum with
        | some q => pyTrunc q
        | none => 0
      else 0)
  | _ => none

/-- The steps loop of `_validate_workflow` (lines 169-179).  A non-dict step
raises (`.error`), as does `int()` of an uncoercible `wait_after`;
`step_number` defaults to `len(validated_steps) + 1`. -/
def validateSteps : List PyVal → List VStep → Except String (List VStep)
  | [], acc => .ok acc
  | s :: rest, acc =>
    match s with
    | .obj d =>
      match pyInt ((vget d "wait_after").getD (.int 500)) with
      | some w =>
        validateSteps rest (acc ++
          [{ step_number := (vget d "step_number").getD (.int ((acc.length : Int) + 1))
             action_type := (vget d "action_type").getD (.str "unknown")
             target := String.mk (pyStrV ((vget d "target").getD (.str "")))
             value := String.mk (pyStrV ((vget d "value").getD (.str "")))
             wait_after := w
             verification := String.mk (pyStrV ((vget d "verification").getD (.str ""))) }])
      | none => .error "ValueError: invalid wait_after"
    | _ => .error "AttributeError: step is not a dict"

/-- `for step in workflow["steps"]`: Python iteration over the raw value.  A
string yields its one-character strings, a dict its keys; non-iterables
raise. -/
def pyIter : PyVal → Except String (List PyVal)
  | .arr xs => .ok xs
  | .str s => .ok (s.toList.map (fun c => .str (String.mk [c])))
  | .obj ms => .ok (ms.map (fun p => .str p.1))
  | _ => .error "TypeError: steps is not iterable"

/-- `WorkflowGenerator._validate_workflow`.  Coercion failures propagate as
uncaught exceptions (`.error`); only the savings computation is guarded by
its own `try`. -/
def validate_workflow (workflowJson : PyVal) : Except String VWorkflow :=
  match workflowJson with
  | .obj m =>
    match pyFloat ((vget m "confidence").getD (.float (1 / 2))) with
    | some conf =>
      match pyIter ((vget m "steps").getD (.arr [])) with
      | .ok jsteps =>
        match validateSteps jsteps [] with
        | .ok vsteps =>
          let etm := (vget m "estimated_time_manual").getD (.str "0 seconds")
          let eta := (vget m "estimated_time_auto").getD (.str "0 seconds")
          let savings :=
            match parse_time etm, parse_time eta with
            | some mt, some at2 => max 0 (mt - at2)
            | _, _ => 0
          .ok { workflow_name := (vget m "workflow_name").getD
                  ((vget m "name").getD (.str "Unnamed Workflow"))
                description := (vget m "description").getD (.str "")
                confidence := conf
                category := (vget m "category").getD (.str "general")
                estimated_time_manual := etm
                estimated_time_auto := eta
                steps := vsteps
                wvariables := (vget m "variables").getD (.arr [])
                triggers := (vget m "triggers").getD (.arr [.str "manual"])
                estimated_savings := savings }
        | .error e => .error e
      | .error e => .error e
    | none => .error "ValueError: invalid confidence"
  | _ => .error "AttributeError: workflow json is not a dict"

/-- `len()` on a raw timeline-event value (`none` = TypeError). -/
def pyLenJ : Json → Option Nat
  | .str s => some s.length
  | .arr xs => some xs.length
  | .obj ms => some ms.length
  | _ => none

/-- A fallback click step (`workflow_generator.py` lines 119-126). -/
def fallbackClickStep (n : Nat) (target : String) : PyVal :=
  .obj [("step_number", .int (n : Int)), ("action_type", .str "click"),
        ("target", .str target), ("value", .str ""),
        ("wait_after", .int 500), ("verification", .str "")]

/-- A fallback type step (lines 131-138); `target` and `value` carry the raw
key value. -/
def fallbackTypeStep (n : Nat) (key : Json) : PyVal :=
  .obj [("step_number", .int (n : Int)), ("action_type", .str "type"),
        ("target", jsonToPy key), ("value", jsonToPy key),
        ("wait_after", .int 100), ("verification", .str "")]

/-- The step-synthesis loop of `_generate_fallback_workflow` (lines 113-139):
one click step per `mouse_press`, one type step per `key_press` whose key has
`len == 1`; the step counter advances only when a step is emitted.  `len()`
of an unsized key raises (`.error`). -/
def fallbackSteps : List TEntry → Nat → Except String (List PyVal)
  | [], _ => .ok []
  | e :: rest, n =>
    if e.etype = some "event" then
      if e.event_type.getD "" = "mouse_press" then
        match fallbackSteps rest (n + 1) with
        | .ok tail =>
          .ok (fallbackClickStep n (String.mk
            (pyStrJ ((jget e.data "x").getD (.int 0)) ++ ','
              :: pyStrJ ((jget e.data "y").getD (.int 0)))) :: tail)
        | .error er => .error er
      else if e.event_type.getD "" = "key_press" then
        match pyLenJ ((jget e.data "key").getD (.str "")) with
        | some 1 =>
          match fallbackSteps rest (n + 1) with
          | .ok tail =>
            .ok (fallbackTypeStep n ((jget e.data "key").getD (.str "")) :: tail)
          | .error er => .error er
        | some _ => fallbackSteps rest n
        | none => .error "TypeError: key has no len"
      else fallbackSteps rest n
    else fallbackSteps rest n

/-- `WorkflowGenerator._generate_fallback_workflow`: a fixed dict whose
`steps` come from the first 10 raw events. -/
def fallback_workflow (t : TimelineObj) : Except String PyVal :=
  match fallbackSteps (t.timeline.take 10) 1 with
  | .ok steps =>
    .ok (.obj [("workflow_name", .str "Recorded Workflow"),
               ("description", .str "Automatically captured workflow"),
               ("confidence", .float (1 / 2)),
               ("category", .str "general"),
               ("estimated_time_manual", .str "60 seconds"),
               ("estimated_time_auto", .str "30 seconds"),
               ("steps", .arr steps),
               ("variables", .arr []),
               ("triggers", .arr [.str "manual"])])
  | .error e => .error e

/-- `WorkflowGenerator.generate_workflow`: `llm` is the outcome of the
`self.llm.generate_json` call (`Except.error ()` = that call raised, the
case the `try`/`except` guards); the result is then validated. -/
def generate_workflow (llm : Except Unit PyVal) (t : TimelineObj) :
    Except String VWorkflow :=
  match llm with
  | .ok j => validate_workflow j
  | .error _ =>
    match fallback_workflow t with
    | .ok j => validate_workflow j
    | .error e => .error e

/-! ### Lemmas about the JSON-extraction pipeline -/

theorem loadsChars_dumpsV (v : Json) : loadsChars (dumpsV v) = some v := by
  have h := loads_dumps v
  simp only [loads, dumps, toList_mk] at h
  exact h

theorem natChars_digits (n : Nat) : ∀ c ∈ natChars n, c.isDigit = true := by
  induction n using Nat.strong_induction_on with
  | _ n ih =>
    by_cases h : n < 10
    · rw [natChars_small h]
      intro c hc
      rw [List.mem_singleton] at hc
      subst hc
      exact digitChar_isDigit h
    · rw [natChars_large h]
      intro c hc
      rcases List.mem_append.mp hc with hm | hm
      · exact ih (n / 10) (Nat.div_lt_self (by omega) (by omega)) c hm
      · rw [List.mem_singleton] at hm
        subst hm
        exact digitChar_isDigit (Nat.mod_lt n (by omega))

theorem last_notWS_of_digits {xs : List Char} (hne : xs ≠ [])
    (hd : ∀ c ∈ xs, c.isDigit = true) :
    ∃ d u, xs.reverse = d :: u ∧ isWS d = false := by
  cases hx : xs.reverse with
  | nil =>
    rw [List.reverse_eq_nil_iff] at hx
    exact absurd hx hne
  | cons d u =>
    refine ⟨d, u, rfl, isWS_of_isDigit (hd d ?_)⟩
    rw [← List.mem_reverse, hx]
    simp

theorem pyStrip_sandwich (a : Char) (mid : List Char) (b : Char)
    (ha : isWS a = false) (hb2 : isWS b = false) :
    pyStrip (a :: (mid ++ [b])) = a :: (mid ++ [b]) := by
  unfold pyStrip
  have h1 : List.dropWhile isWS (a :: (mid ++ [b])) = a :: (mid ++ [b]) := by
    simp [List.dropWhile_cons, ha]
  rw [h1]
  have h2 : (a :: (mid ++ [b])).reverse = b :: (mid.reverse ++ [a]) := by simp
  rw [h2]
  have h3 : List.dropWhile isWS (b :: (mid.reverse ++ [a])) = b :: (mid.reverse ++ [a]) := by
    simp [List.dropWhile_cons, hb2]
  rw [h3, ← h2, List.reverse_reverse]

theorem pyStrip_all_digits {xs : List Char} (hne : xs ≠ [])
    (hd : ∀ c ∈ xs, c.isDigit = true) : pyStrip xs = xs := by
  obtain ⟨c, t, hct⟩ : ∃ c t, xs = c :: t := by
    cases xs with
    | nil => exact absurd rfl hne
    | cons c t => exact ⟨c, t, rfl⟩
  have hcw : isWS c = false :=
    isWS_of_isDigit (hd c (by rw [hct]; simp))
  obtain ⟨d, u, hrev, hdw⟩ := last_notWS_of_digits hne hd
  unfold pyStrip
  have h1 : List.dropWhile isWS xs = xs := by
    rw [hct]
    simp [List.dropWhile_cons, hcw]
  rw [h1, hrev]
  have h3 : List.dropWhile isWS (d :: u) = d :: u := by
    simp [List.dropWhile_cons, hdw]
  rw [h3, ← hrev, List.reverse_reverse]

theorem pyStrip_dumpsV (v : Json) : pyStrip (dumpsV v) = dumpsV v := by
  cases v with
  | null => rw [dumpsV]; rfl
  | bool b => cases b <;> (rw [dumpsV]; rfl)
  | int i =>
    rw [dumpsV]
    unfold intChars
    by_cases hi : i < 0
    · rw [if_pos hi]
      have hdigs := natChars_digits i.natAbs
      obtain ⟨d, t, hdt, _⟩ := natChars_shape i.natAbs
      have hne : natChars i.natAbs ≠ [] := by rw [hdt]; simp
      obtain ⟨e, u, hrev, hw⟩ := last_notWS_of_digits hne hdigs
      have hform : natChars i.natAbs = u.reverse ++ [e] := by
        have h := congrArg List.reverse hrev
        simpa using h
      rw [hform]
      exact pyStrip_sandwich '-' u.reverse e (by decide) hw
    · rw [if_neg hi]
      obtain ⟨d, t, hdt, _⟩ := natChars_shape i.natAbs
      exact pyStrip_all_digits (by rw [hdt]; simp) (natChars_digits i.natAbs)
  | str s =>
    rw [dumpsV]
    exact pyStrip_sandwich '"' (escStr s.toList) '"' (by decide) (by decide)
  | arr xs =>
    rw [dumpsV]
    exact pyStrip_sandwich '[' (dumpsArr xs) ']' (by decide) (by decide)
  | obj ms =>
    rw [dumpsV]
    exact pyStrip_sandwich '{' (dumpsObj ms) '}' (by decide) (by decide)

theorem isPrefixL_append_self : ∀ (s r : List Char), isPrefixL s (s ++ r) = true := by
  intro s
  induction s with
  | nil => intro r; rfl
  | cons a as ih => intro r; simp [isPrefixL, ih]

theorem hasSub_self_append {h : Char} {s' : List Char} {sep : List Char}
    (hsep : sep = h :: s') (r : List Char) : hasSub sep (sep ++ r) = true := by
  subst hsep
  rw [List.cons_append, hasSub]
  rw [show h :: (s' ++ r) = (h :: s') ++ r from rfl, isPrefixL_append_self]
  rfl

theorem hasSub_append_notin {h : Char} {s' : List Char} {sep : List Char}
    (hsep : sep = h :: s') :
    ∀ (A C : List Char), h ∉ A → hasSub sep (A ++ C) = hasSub sep C := by
  subst hsep
  intro A
  induction A with
  | nil => intro C _; rfl
  | cons a as ih =>
    intro C hA
    have ha : h ≠ a := fun he => hA (he ▸ List.mem_cons_self a as)
    have has : h ∉ as := fun hm => hA (List.mem_cons_of_mem a hm)
    rw [List.cons_append, hasSub]
    simp [isPrefixL, ha, ih C has]

theorem hasSub_notin {h : Char} {s' : List Char} {sep : List Char}
    (hsep : sep = h :: s') (A : List Char) (hA : h ∉ A) : hasSub sep A = false := by
  have h2 := hasSub_append_notin hsep A [] hA
  rw [List.append_nil] at h2
  rw [h2, hsep, hasSub]
  rfl

theorem isPrefixL_nil_false {h : Char} {s' : List Char} {sep : List Char}
    (hsep : sep = h :: s') : isPrefixL sep [] = false := by
  subst hsep
  rfl

theorem splitAuxF_fuel {sep : List Char} (hs : sep ≠ []) :
    ∀ (n : Nat) (xs : List Char) (f g : Nat) (acc : List Char),
      xs.length ≤ n → xs.length < f → xs.length < g →
      splitAuxF sep f xs acc = splitAuxF sep g xs acc := by
  intro n
  induction n with
  | zero =>
    intro xs f g acc hn hf hg
    have hxs : xs = [] := List.length_eq_zero.mp (Nat.le_zero.mp hn)
    subst hxs
    cases f with
    | zero => omega
    | succ f =>
      cases g with
      | zero => omega
      | succ g =>
        rw [splitAuxF, splitAuxF]
        have hp : isPrefixL sep [] = false := by
          cases sep with
          | nil => exact absurd rfl hs
          | cons a as => rfl
        simp [hp]
  | succ n ih =>
    intro xs f g acc hn hf hg
    cases f with
    | zero => omega
    | succ f =>
      cases g with
      | zero => omega
      | succ g =>
        cases xs with
        | nil =>
          rw [splitAuxF, splitAuxF]
          have hp : isPrefixL sep [] = false := by
            cases sep with
            | nil => exact absurd rfl hs
            | cons a as => rfl
          simp [hp]
        | cons c rest =>
          rw [splitAuxF, splitAuxF]
          by_cases hp : isPrefixL sep (c :: rest) = true
          · simp only [hp, if_true]
            have hsl : 1 ≤ sep.length := by
              cases sep with
              | nil => exact absurd rfl hs
              | cons a as => simp
            congr 1
            exact ih ((c :: rest).drop sep.length) f g []
              (by rw [List.length_drop]; simp at hn ⊢; omega)
              (by rw [List.length_drop]; simp at hf ⊢; omega)
              (by rw [List.length_drop]; simp at hg ⊢; omega)
          · simp only [hp, if_false]
            exact ih rest f g (c :: acc)
              (by simp at hn; omega)
              (by simp at hf; omega)
              (by simp at hg; omega)

theorem splitAuxF_no {h : Char} {s' : List Char} {sep : List Char}
    (hsep : sep = h :: s') :
    ∀ (xs : List Char) (f : Nat) (acc : List Char), xs.length < f →
      hasSub sep xs = false → splitAuxF sep f xs acc = [acc.reverse ++ xs] := by
  subst hsep
  intro xs
  induction xs with
  | nil =>
    intro f acc hf _
    cases f with
    | zero => omega
    | succ f =>
      rw [splitAuxF]
      simp [isPrefixL]
  | cons c rest ih =>
    intro f acc hf hsub
    cases f with
    | zero => omega
    | succ f =>
      rw [hasSub] at hsub
      rw [Bool.or_eq_false_iff] at hsub
      rw [splitAuxF]
      simp only [hsub.1, if_false]
      rw [ih f (c :: acc) (by simp at hf; omega) hsub.2]
      simp

theorem splitAuxF_walk {h : Char} {s' : List Char} {sep : List Char}
    (hsep : sep = h :: s') :
    ∀ (A : List Char) (f : Nat) (acc rest : List Char), h ∉ A →
      splitAuxF sep (A.length + f) (A ++ rest) acc
        = splitAuxF sep f rest (A.reverse ++ acc) := by
  subst hsep
  intro A
  induction A with
  | nil => intro f acc rest _; simp
  | cons a as ih =>
    intro f acc rest hA
    have ha : h ≠ a := fun he => hA (he ▸ List.mem_cons_self a as)
    have has : h ∉ as := fun hm => hA (List.mem_cons_of_mem a hm)
    have hp : isPrefixL (h :: s') (a :: (as ++ rest)) = false := by
      simp [isPrefixL, ha]
    have hlen : (a :: as).length + f = (as.length + f) + 1 := by
      simp [List.length_cons]
      omega
    rw [hlen, List.cons_append, splitAuxF]
    simp only [hp, if_false]
    rw [ih f (a :: acc) rest has]
    simp

theorem splitAuxF_sep_nil {h : Char} {s' : List Char} {sep : List Char}
    (hsep : sep = h :: s') (acc : List Char) :
    splitAuxF sep (sep.length + 1) sep acc = [acc.reverse, []] := by
  subst hsep
  have hp : isPrefixL (h :: s') (h :: s') = true := by
    have h2 := isPrefixL_append_self (h :: s') []
    rwa [List.append_nil] at h2
  rw [splitAuxF]
  simp only [hp, if_true, List.drop_length]
  rw [show (h :: s').length = s'.length + 1 from by simp, splitAuxF]
  simp [isPrefixL]

theorem pySplit_cons_self {sep : List Char} (hs : sep ≠ []) (R : List Char) :
    pySplit sep (sep ++ R) = [] :: pySplit sep R := by
  cases sep with
  | nil => exact absurd rfl hs
  | cons a as =>
    unfold pySplit
    rw [List.cons_append, splitAuxF]
    have hp : isPrefixL (a :: as) (a :: (as ++ R)) = true := by
      have h2 := isPrefixL_append_self (a :: as) R
      rwa [List.cons_append] at h2
    simp only [hp, if_true, List.reverse_nil]
    have hdrop : (a :: (as ++ R)).drop (a :: as).length = R := by
      rw [← List.cons_append, List.drop_left]
    rw [hdrop]
    congr 1
    exact splitAuxF_fuel hs R.length R (a :: (as ++ R)).length (R.length + 1) []
      le_rfl (by simp; omega) (by omega)

theorem extract_fenced (B : List Char) (hb : btick ∉ B) :
    extractText (fenceJson ++ (B ++ fence)) = pyStrip B := by
  have hfj : fenceJson = btick :: [btick, btick, 'j', 's', 'o', 'n'] := rfl
  have hfc : fence = btick :: [btick, btick] := rfl
  have h1 : hasSub fenceJson (fenceJson ++ (B ++ fence)) = true :=
    hasSub_self_append hfj (B ++ fence)
  unfold extractText
  rw [if_pos h1]
  rw [pySplit_cons_self (by rw [hfj]; simp) (B ++ fence)]
  have h2 : hasSub fenceJson (B ++ fence) = false := by
    rw [hasSub_append_notin hfj B fence hb]
    rfl
  have h3 : pySplit fenceJson (B ++ fence) = [B ++ fence] := by
    unfold pySplit
    rw [splitAuxF_no hfj (B ++ fence) ((B ++ fence).length + 1) []
      (Nat.lt_succ_self _) h2]
    simp
  rw [h3]
  have h4 : pySplit fence (B ++ fence) = [B, []] := by
    unfold pySplit
    rw [show (B ++ fence).length + 1 = B.length + (fence.length + 1) from by
      simp [List.length_append]; omega]
    rw [splitAuxF_walk hfc B (fence.length + 1) [] fence hb]
    rw [List.append_nil, splitAuxF_sep_nil hfc B.reverse]
    rw [List.reverse_reverse]
  have h5 : ((([] : List Char) :: [B ++ fence]).getD 1 []) = B ++ fence := rfl
  rw [h5, h4]
  rfl

theorem extract_bare (B : List Char) (hb : btick ∉ B) : extractText B = B := by
  have hfj : fenceJson = btick :: [btick, btick, 'j', 's', 'o', 'n'] := rfl
  have hfc : fence = btick :: [btick, btick] := rfl
  unfold extractText
  rw [if_neg (by rw [hasSub_notin hfj B hb]; simp),
    if_neg (by rw [hasSub_notin hfc B hb]; simp)]

/-- C3: for a JSON value J containing no backtick in its serialization, the
extraction in `LLMInterface.generate_json` recovers J both from a response
wrapping the serialized J in a ```json fenced block and from the bare
serialized J as the whole response.  (The third shape claimed by the spec —
J embedded in surrounding prose via a `\x7b...\x7d` substring strategy — has no
counterpart in the code; see the accompanying counterexample.) -/
theorem C3_json_extraction (J : Json) (hb : btick ∉ dumpsV J) :
    generate_json (fenceJson ++ (dumpsV J ++ fence)) = jsonToPy J
    ∧ generate_json (dumpsV J) = jsonToPy J := by
  constructor
  · unfold generate_json
    rw [extract_fenced (dumpsV J) hb, pyStrip_dumpsV, loadsChars_dumpsV]
  · unfold generate_json
    rw [extract_bare (dumpsV J) hb, loadsChars_dumpsV]

theorem C3_json_extraction_witness :
    btick ∉ dumpsV (Json.obj [])
    ∧ (generate_json (fenceJson ++ (dumpsV (Json.obj []) ++ fence))
        = jsonToPy (Json.obj [])
       ∧ generate_json (dumpsV (Json.obj [])) = jsonToPy (Json.obj [])) := by
  have hb : btick ∉ dumpsV (Json.obj []) := by
    rw [show dumpsV (Json.obj []) = ['{', '}'] from by rw [dumpsV, dumpsObj]; rfl]
    decide
  exact ⟨hb, C3_json_extraction (Json.obj []) hb⟩

/-- C3 counterexample: the response `The \x7b"a": 1\x7d ok` — the serialized
object embedded in prose, the spec's third shape — does not parse back to the
object: there is no brace-substring extraction strategy in
`LLMInterface.generate_json`, so the whole response is fed to `json.loads`,
which fails, and the fallback dict is returned instead, while the bare
response shape does recover the object. -/
theorem C3_counterexample :
    generate_json (['T', 'h', 'e', ' ']
        ++ ([Char.ofNat 123, '"', 'a', '"', ':', ' ', '1', Char.ofNat 125]
            ++ [' ', 'o', 'k'])) = llmFallbackJson
    ∧ generate_json [Char.ofNat 123, '"', 'a', '"', ':', ' ', '1', Char.ofNat 125]
        = jsonToPy (Json.obj [("a", Json.int 1)])
    ∧ llmFallbackJson ≠ jsonToPy (Json.obj [("a", Json.int 1)]) := by
  refine ⟨rfl, rfl, ?_⟩
  intro h
  rw [show jsonToPy (Json.obj [("a", Json.int 1)]) = PyVal.obj [("a", PyVal.int 1)]
    from by simp [jsonToPy, jsonToPyObj]] at h
  rw [llmFallbackJson] at h
  simp at h

/-! ### C4: fallback workflow generation -/

/-- A step emitted by `_generate_fallback_workflow`: a click step from a
`mouse_press` or a type step from a single-character `key_press`. -/
def isFallbackStep (p : PyVal) : Prop :=
  (∃ n t, p = fallbackClickStep n t) ∨ (∃ n k, p = fallbackTypeStep n k)

theorem fallbackSteps_shape :
    ∀ (es : List TEntry) (n : Nat) (ss : List PyVal),
      fallbackSteps es n = .ok ss → ∀ p ∈ ss, isFallbackStep p := by
  intro es
  induction es with
  | nil =>
    intro n ss h p hp
    rw [fallbackSteps] at h
    cases h
    simp at hp
  | cons e rest ih =>
    intro n ss h p hp
    rw [fallbackSteps] at h
    by_cases h1 : e.etype = some "event"
    · rw [if_pos h1] at h
      by_cases h2 : e.event_type.getD "" = "mouse_press"
      · rw [if_pos h2] at h
        cases htail : fallbackSteps rest (n + 1) with
        | error er => rw [htail] at h; cases h
        | ok tail =>
          rw [htail] at h
          cases h
          rcases List.mem_cons.mp hp with hp1 | hp1
          · exact Or.inl ⟨n, _, hp1⟩
          · exact ih (n + 1) tail htail p hp1
      · rw [if_neg h2] at h
        by_cases h3 : e.event_type.getD "" = "key_press"
        · rw [if_pos h3] at h
          cases hkey : pyLenJ ((jget e.data "key").getD (.str "")) with
          | none => rw [hkey] at h; cases h
          | some m =>
            rw [hkey] at h
            match m, h with
            | 1, h =>
              cases htail : fallbackSteps rest (n + 1) with
              | error er => rw [htail] at h; cases h
              | ok tail =>
                rw [htail] at h
                cases h
                rcases List.mem_cons.mp hp with hp1 | hp1
                · exact Or.inr ⟨n, _, hp1⟩
                · exact ih (n + 1) tail htail p hp1
            | 0, h => exact ih n ss h p hp
            | m + 2, h => exact ih n ss h p hp
        · rw [if_neg h3] at h
          exact ih n ss h p hp
    · rw [if_neg h1] at h
      exact ih n ss h p hp

theorem validateSteps_ok :
    ∀ (ss : List PyVal), (∀ p ∈ ss, isFallbackStep p) →
      ∀ acc, ∃ vs, validateSteps ss acc = .ok vs
        ∧ vs.length = acc.length + ss.length := by
  intro ss
  induction ss with
  | nil =>
    intro _ acc
    exact ⟨acc, rfl, by simp⟩
  | cons p rest ih =>
    intro hall acc
    have hp := hall p (List.mem_cons_self p rest)
    have hrest : ∀ q ∈ rest, isFallbackStep q :=
      fun q hq => hall q (List.mem_cons_of_mem p hq)
    rcases hp with ⟨n, t, rfl⟩ | ⟨n, k, rfl⟩
    · obtain ⟨vs, hvs, hl⟩ := ih hrest (acc ++
        [{ step_number := .int (n : Int)
           action_type := .str "click"
           target := String.mk (pyStrV (.str t))
           value := String.mk (pyStrV (.str ""))
           wait_after := 500
           verification := String.mk (pyStrV (.str "")) }])
      refine ⟨vs, ?_, by rw [hl]; simp [List.length_append]; try omega⟩
      rw [← hvs]
      rfl
    · obtain ⟨vs, hvs, hl⟩ := ih hrest (acc ++
        [{ step_number := .int (n : Int)
           action_type := .str "type"
           target := String.mk (pyStrV (jsonToPy k))
           value := String.mk (pyStrV (jsonToPy k))
           wait_after := 100
           verification := String.mk (pyStrV (.str "")) }])
      refine ⟨vs, ?_, by rw [hl]; simp [List.length_append]; try omega⟩
      rw [← hvs]
      rfl

/-- C4: when the text-generator call raises, `generate_workflow` falls back to
a deterministic workflow: it succeeds whenever the fallback step synthesis
over the first 10 timeline entries succeeds, with confidence exactly 0.5, and
its validated steps are in one-to-one correspondence with the fallback steps,
each of which is a click step from a `mouse_press` or a type step from a
single-character `key_press` among those 10 entries.  The steps list is
empty — not non-empty as the spec claims — when those first 10 entries
contain no such events (see the counterexample), and events past the tenth
entry are never consulted. -/
theorem C4_fallback_workflow (t : TimelineObj) (ss : List PyVal)
    (hss : fallbackSteps (t.timeline.take 10) 1 = .ok ss) :
    ∃ w, generate_workflow (Except.error ()) t = Except.ok w
      ∧ w.confidence = 1 / 2
      ∧ validateSteps ss [] = Except.ok w.steps
      ∧ w.steps.length = ss.length
      ∧ (∀ p ∈ ss, isFallbackStep p) := by
  have hshape := fallbackSteps_shape (t.timeline.take 10) 1 ss hss
  obtain ⟨vs, hvs, hlen⟩ := validateSteps_ok ss hshape []
  refine ⟨{ workflow_name := .str "Recorded Workflow"
            description := .str "Automatically captured workflow"
            confidence := 1 / 2
            category := .str "general"
            estimated_time_manual := .str "60 seconds"
            estimated_time_auto := .str "30 seconds"
            steps := vs
            wvariables := .arr []
            triggers := .arr [.str "manual"]
            estimated_savings :=
              match parse_time (.str "60 seconds"), parse_time (.str "30 seconds") with
              | some mt, some at2 => max 0 (mt - at2)
              | _, _ => 0 }, ?_, rfl, by rw [hvs], by rw [hlen]; simp, hshape⟩
  conv_lhs => whnf
  rw [fallback_workflow, hss]
  conv_lhs => whnf
  rw [hvs]
  rfl

theorem C4_fallback_workflow_witness :
    fallbackSteps ((TimelineObj.mk
        [TEntry.mk (some "event") (some "mouse_press")
          [("x", Json.int 10), ("y", Json.int 20)] none]
        none none).timeline.take 10) 1
      = .ok [fallbackClickStep 1 (String.mk
          (pyStrJ (Json.int 10) ++ ',' :: pyStrJ (Json.int 20)))]
    ∧ ∃ w, generate_workflow (Except.error ())
          (TimelineObj.mk
            [TEntry.mk (some "event") (some "mouse_press")
              [("x", Json.int 10), ("y", Json.int 20)] none]
            none none) = Except.ok w
        ∧ w.confidence = 1 / 2
        ∧ validateSteps [fallbackClickStep 1 (String.mk
            (pyStrJ (Json.int 10) ++ ',' :: pyStrJ (Json.int 20)))] []
            = Except.ok w.steps
        ∧ w.steps.length = [fallbackClickStep 1 (String.mk
            (pyStrJ (Json.int 10) ++ ',' :: pyStrJ (Json.int 20)))].length
        ∧ (∀ p ∈ [fallbackClickStep 1 (String.mk
            (pyStrJ (Json.int 10) ++ ',' :: pyStrJ (Json.int 20)))],
            isFallbackStep p) :=
  ⟨rfl, C4_fallback_workflow _ _ rfl⟩

/-- C4 counterexample: a timeline with no events at all still takes the
fallback path, but the generated workflow's steps list is empty, refuting the
claimed non-emptiness of the fallback steps. -/
theorem C4_counterexample :
    ∃ w, generate_workflow (Except.error ()) (TimelineObj.mk [] none none)
        = Except.ok w
      ∧ w.steps = [] ∧ w.confidence = 1 / 2 :=
  ⟨_, rfl, rfl, rfl⟩

/-! ### C6: step normalization in `_validate_workflow` -/

/-- Characterization of the step records that the `_validate_workflow` loop
produces from dict steps, starting at 0-based position `k`: `step_number` is
the provided value when present and the 1-based position only as a default,
`wait_after` is the `int()` coercion of the provided value defaulting to 500,
and `target`/`value`/`verification` are `str()` coercions. -/
def normStepsFrom (k : Nat) : List (List (String × PyVal)) → List VStep
  | [] => []
  | d :: rest =>
    { step_number := (vget d "step_number").getD (.int ((k : Int) + 1))
      action_type := (vget d "action_type").getD (.str "unknown")
      target := String.mk (pyStrV ((vget d "target").getD (.str "")))
      value := String.mk (pyStrV ((vget d "value").getD (.str "")))
      wait_after := (pyInt ((vget d "wait_after").getD (.int 500))).getD 0
      verification := String.mk (pyStrV ((vget d "verification").getD (.str ""))) }
    :: normStepsFrom (k + 1) rest

theorem validateSteps_norm :
    ∀ (ds : List (List (String × PyVal))) (acc : List VStep) (vs : List VStep),
      validateSteps (ds.map PyVal.obj) acc = Except.ok vs →
      vs = acc ++ normStepsFrom acc.length ds
      ∧ ∀ d ∈ ds, (pyInt ((vget d "wait_after").getD (.int 500))).isSome = true := by
  intro ds
  induction ds with
  | nil =>
    intro acc vs h
    rw [List.map_nil, validateSteps] at h
    cases h
    exact ⟨by rw [normStepsFrom]; simp, by simp⟩
  | cons d rest ih =>
    intro acc vs h
    rw [List.map_cons, validateSteps] at h
    cases hw : pyInt ((vget d "wait_after").getD (.int 500)) with
    | none =>
      rw [hw] at h
      exact absurd h (by simp)
    | some w =>
      rw [hw] at h
      obtain ⟨h1, h2⟩ := ih _ _ h
      constructor
      · rw [h1, normStepsFrom, hw]
        simp [List.length_append, List.append_assoc]
      · intro d2 hd2
        rcases List.mem_cons.mp hd2 with hd3 | hd3
        · subst hd3
          rw [hw]
          rfl
        · exact h2 d2 hd3

/-- C6: the validated workflow keeps each step's provided `step_number`
verbatim — the 1-based position `len(validated_steps) + 1` is only the
default for steps that lack the field — while `wait_after` is `int()`-coerced
with default 500 and `target`/`value`/`verification` are `str()`-coerced.
There is no dense renumbering from 1 (see the counterexample). -/
theorem C6_step_normalization (m : List (String × PyVal))
    (ds : List (List (String × PyVal))) (conf : ℚ) (w : VWorkflow)
    (hsteps : vget m "steps" = some (.arr (ds.map PyVal.obj)))
    (hconf : pyFloat ((vget m "confidence").getD (.float (1 / 2))) = some conf)
    (hok : validate_workflow (.obj m) = Except.ok w) :
    w.steps = normStepsFrom 0 ds
    ∧ ∀ d ∈ ds, (pyInt ((vget d "wait_after").getD (.int 500))).isSome = true := by
  have h := hok
  rw [validate_workflow, hconf] at h
  conv at h => lhs; whnf
  rw [hsteps] at h
  conv at h => lhs; whnf
  cases hv : validateSteps (ds.map PyVal.obj) [] with
  | error e =>
    rw [hv] at h
    conv at h => lhs; whnf
    exact Except.noConfusion h
  | ok vs =>
    rw [hv] at h
    conv at h => lhs; whnf
    obtain ⟨hv1, hv2⟩ := validateSteps_norm ds [] vs hv
    injection h with h2
    rw [← h2]
    refine ⟨?_, hv2⟩
    show vs = normStepsFrom 0 ds
    simpa using hv1

theorem C6_step_normalization_witness :
    vget [("steps", PyVal.arr [PyVal.obj [("step_number", PyVal.int 7)]])] "steps"
      = some (.arr ([[("step_number", PyVal.int 7)]].map PyVal.obj))
    ∧ pyFloat ((vget [("steps", PyVal.arr [PyVal.obj [("step_number", PyVal.int 7)]])]
        "confidence").getD (.float (1 / 2))) = some (1 / 2)
    ∧ ∃ w, validate_workflow
        (.obj [("steps", PyVal.arr [PyVal.obj [("step_number", PyVal.int 7)]])])
        = Except.ok w
      ∧ (w.steps = normStepsFrom 0 [[("step_number", PyVal.int 7)]]
         ∧ ∀ d ∈ [[("step_number", PyVal.int 7)]],
             (pyInt ((vget d "wait_after").getD (.int 500))).isSome = true) :=
  ⟨rfl, rfl, _, rfl,
    C6_step_normalization [("steps", PyVal.arr [PyVal.obj [("step_number", PyVal.int 7)]])]
      [[("step_number", PyVal.int 7)]] (1 / 2) _ rfl rfl rfl⟩

/-- C6 counterexample: a single step carrying `step_number: 7` keeps 7 after
validation; its step number does not equal its 1-based position 1, refuting
the claimed dense renumbering. -/
theorem C6_counterexample :
    ∃ w, validate_workflow
        (.obj [("steps", PyVal.arr [PyVal.obj [("step_number", PyVal.int 7)]])])
        = Except.ok w
      ∧ ∃ s, w.steps = [s] ∧ s.step_number = PyVal.int 7
        ∧ s.step_number ≠ PyVal.int 1 :=
  ⟨_, rfl, _, rfl, rfl, by simp [vget]⟩

/-! ### Database model (`src/src/storage/database.py`)

The `workflows` and `execution_logs` tables and the operations the claims
touch.  Column types follow the schema in `_initialize_database`: `name TEXT
NOT NULL` (a missing name makes the INSERT raise `IntegrityError`), counters
`times_run`/`times_succeeded` INTEGER with DEFAULT 0, and `steps`/`variables`
stored as `json.dumps` text.  `workflow_data.get(...)`/`execution_data.get(...)`
values are modelled with the bindable types the callers supply (`None` =
missing key or null value). -/

/-- A row of the `workflows` table. -/
structure WRow where
  id : Nat
  name : String
  description : Option String
  category : Option String
  stepsText : String
  variablesText : String
  confidence : ℚ
  frequency : String
  estimated_savings : Int
  times_run : Int
  times_succeeded : Int

/-- A row of the `execution_logs` table. -/
structure LogRow where
  id : Nat
  workflow_id : Nat
  success : Bool
  steps_completed : Int
  steps_total : Int
  error_message : Option String

/-- The database state: table contents plus the AUTOINCREMENT counters. -/
structure DBState where
  workflows : List WRow
  logs : List LogRow
  nextId : Nat
  nextLogId : Nat

/-- The fields `Database.add_workflow` reads from `workflow_data`. -/
structure WorkflowData where
  name : Option String
  description : Option String
  category : Option String
  steps : Option Json
  wvariables : Option Json
  confidence : Option ℚ
  frequency : Option String
  estimated_savings : Option Int

/-- `Database.add_workflow`: INSERT with `json.dumps` of steps/variables and
the documented defaults; a missing `name` violates `NOT NULL` and raises. -/
def add_workflow (wd : WorkflowData) (db : DBState) : Except String (Nat × DBState) :=
  match wd.name with
  | none => .error "IntegrityError: NOT NULL constraint failed: workflows.name"
  | some nm =>
    .ok (db.nextId,
      { workflows := db.workflows ++
          [{ id := db.nextId
             name := nm
             description := wd.description
             category := wd.category
             stepsText := String.mk (dumpsV (wd.steps.getD (.arr [])))
             variablesText := String.mk (dumpsV (wd.wvariables.getD (.arr [])))
             confidence := wd.confidence.getD 0
             frequency := wd.frequency.getD "manual"
             estimated_savings := wd.estimated_savings.getD 0
             times_run := 0
             times_succeeded := 0 }]
        logs := db.logs
        nextId := db.nextId + 1
        nextLogId := db.nextLogId })

/-- The workflow dict produced by `Database._row_to_dict`: JSON columns are
parsed when their text is truthy (`none` in `steps`/`wvariables` models both
an empty text left unparsed and a `json.loads` failure; neither occurs for
rows written by `add_workflow`). -/
structure WDict where
  id : Nat
  name : String
  description : Option String
  category : Option String
  steps : Option Json
  wvariables : Option Json
  confidence : ℚ
  frequency : String
  estimated_savings : Int
  times_run : Int
  times_succeeded : Int

/-- `Database._row_to_dict` on a `workflows` row. -/
def rowToDict (r : WRow) : WDict :=
  { id := r.id
    name := r.name
    description := r.description
    category := r.category
    steps := if r.stepsText.length = 0 then none else loads r.stepsText
    wvariables := if r.variablesText.length = 0 then none else loads r.variablesText
    confidence := r.confidence
    frequency := r.frequency
    estimated_savings := r.estimated_savings
    times_run := r.times_run
    times_succeeded := r.times_succeeded }

/-- `Database.get_workflow`: SELECT by id, converted by `_row_to_dict`. -/
def get_workflow (db : DBState) (wid : Nat) : Option WDict :=
  (db.workflows.find? (fun r => r.id == wid)).map rowToDict

/-- The fields `Database.log_execution` reads from `execution_data`. -/
structure ExecData where
  workflow_id : Option Nat
  success : Bool
  steps_completed : Int
  steps_total : Int
  error_message : Option String
  execution_time : Int

/-- `Database.log_execution`: INSERT a log row (a missing `workflow_id`
violates `NOT NULL`), then UPDATE the workflow's counters — both counters on
success, only `times_run` otherwise.  Foreign keys are not enforced (sqlite3
default), so a dangling `workflow_id` still logs and updates nothing. -/
def log_execution (ed : ExecData) (db : DBState) : Except String (Nat × DBState) :=
  match ed.workflow_id with
  | none => .error "IntegrityError: NOT NULL constraint failed: execution_logs.workflow_id"
  | some wid =>
    .ok (db.nextLogId,
      { workflows :=
          if ed.success then
            db.workflows.map (fun r =>
              if r.id == wid then
                { r with times_succeeded := r.times_succeeded + 1,
                         times_run := r.times_run + 1 }
              else r)
          else
            db.workflows.map (fun r =>
              if r.id == wid then { r with times_run := r.times_run + 1 } else r)
        logs := db.logs ++
          [{ id := db.nextLogId
             workflow_id := wid
             success := ed.success
             steps_completed := ed.steps_completed
             steps_total := ed.steps_total
             error_message := ed.error_message }]
        nextId := db.nextId
        nextLogId := db.nextLogId + 1 })

theorem find?_append_of_none {α : Type} (p : α → Bool) :
    ∀ (l l2 : List α), (∀ y ∈ l, p y = false) → (l ++ l2).find? p = l2.find? p := by
  intro l
  induction l with
  | nil => intro l2 _; rfl
  | cons a as ih =>
    intro l2 h
    rw [List.cons_append, List.find?_cons_of_neg _ (by rw [h a (by simp)]; simp)]
    exact ih l2 (fun y hy => h y (by simp [hy]))

theorem find?_map_bump (wid : Nat) (bump : WRow → WRow)
    (hid : ∀ r, (bump r).id = r.id) :
    ∀ l : List WRow,
      (l.map (fun r => if r.id == wid then bump r else r)).find? (fun r => r.id == wid)
        = (l.find? (fun r => r.id == wid)).map bump := by
  intro l
  induction l with
  | nil => rfl
  | cons a as ih =>
    rw [List.map_cons]
    by_cases ha : a.id = wid
    · have hb : (a.id == wid) = true := by simp [ha]
      rw [if_pos hb]
      have h1 : List.find? (fun r => r.id == wid)
          (bump a :: as.map (fun r => if r.id == wid then bump r else r))
          = some (bump a) :=
        List.find?_cons_of_pos _ (by rw [hid a]; exact hb)
      have h2 : List.find? (fun r => r.id == wid) (a :: as) = some a :=
        List.find?_cons_of_pos _ hb
      rw [h1, h2]
      rfl
    · have hb : (a.id == wid) = false := by simp [ha]
      rw [if_neg (by rw [hb]; simp)]
      have h1 : List.find? (fun r => r.id == wid)
          (a :: as.map (fun r => if r.id == wid then bump r else r))
          = List.find? (fun r => r.id == wid)
              (as.map (fun r => if r.id == wid then bump r else r)) :=
        List.find?_cons_of_neg _ (by rw [hb]; simp)
      have h2 : List.find? (fun r => r.id == wid) (a :: as)
          = List.find? (fun r => r.id == wid) as :=
        List.find?_cons_of_neg _ (by rw [hb]; simp)
      rw [h1, h2]
      exact ih

theorem find?_map_bumpS (wid : Nat) (l : List WRow) :
    (l.map (fun r => if r.id == wid then
        { r with times_succeeded := r.times_succeeded + 1,
                 times_run := r.times_run + 1 } else r)).find? (fun r => r.id == wid)
      = (l.find? (fun r => r.id == wid)).map (fun r =>
          { r with times_succeeded := r.times_succeeded + 1,
                   times_run := r.times_run + 1 }) :=
  find?_map_bump wid (fun r =>
    { r with times_succeeded := r.times_succeeded + 1,
             times_run := r.times_run + 1 }) (fun _ => rfl) l

theorem find?_map_bumpR (wid : Nat) (l : List WRow) :
    (l.map (fun r => if r.id == wid then
        { r with times_run := r.times_run + 1 } else r)).find? (fun r => r.id == wid)
      = (l.find? (fun r => r.id == wid)).map (fun r =>
          { r with times_run := r.times_run + 1 }) :=
  find?_map_bump wid (fun r => { r with times_run := r.times_run + 1 }) (fun _ => rfl) l

theorem length_dumpsV_ne (v : Json) : (String.mk (dumpsV v)).length ≠ 0 := by
  obtain ⟨c, t, h, _, _⟩ := dumpsV_shape v
  show (dumpsV v).length ≠ 0
  rw [h]
  simp

/-- C9: a workflow stored by `Database.add_workflow` (its `name` present, as
NOT NULL requires) and reloaded by id through `Database.get_workflow` comes
back with the identical parsed `steps` value and identical `name`,
`description`, `category`, `variables`, `confidence` and `estimated_savings`,
with both counters 0.  The freshness hypothesis says the AUTOINCREMENT id is
not already used by a row, which sqlite guarantees. -/
theorem C9_workflow_roundtrip (wd : WorkflowData) (db : DBState) (nm : String)
    (wid : Nat) (db2 : DBState)
    (hname : wd.name = some nm)
    (hadd : add_workflow wd db = Except.ok (wid, db2))
    (hfresh : ∀ r ∈ db.workflows, r.id ≠ db.nextId) :
    ∃ d, get_workflow db2 wid = some d
      ∧ d.name = nm
      ∧ d.description = wd.description
      ∧ d.category = wd.category
      ∧ d.steps = some (wd.steps.getD (.arr []))
      ∧ d.wvariables = some (wd.wvariables.getD (.arr []))
      ∧ d.confidence = wd.confidence.getD 0
      ∧ d.estimated_savings = wd.estimated_savings.getD 0
      ∧ d.times_run = 0 ∧ d.times_succeeded = 0 := by
  rw [add_workflow, hname] at hadd
  conv at hadd => lhs; whnf
  injection hadd with h1
  injection h1 with hwid hdb
  subst hwid
  subst hdb
  rw [get_workflow]
  rw [find?_append_of_none _ db.workflows _
    (fun y hy => by simp [hfresh y hy])]
  rw [List.find?_cons_of_pos _ (by simp)]
  refine ⟨_, rfl, rfl, rfl, rfl, ?_, ?_, rfl, rfl, rfl, rfl⟩
  · show (if (String.mk (dumpsV (wd.steps.getD (.arr [])))).length = 0 then none
      else loads (String.mk (dumpsV (wd.steps.getD (.arr []))))) = _
    rw [if_neg (length_dumpsV_ne _)]
    exact loads_dumps _
  · show (if (String.mk (dumpsV (wd.wvariables.getD (.arr [])))).length = 0 then none
      else loads (String.mk (dumpsV (wd.wvariables.getD (.arr []))))) = _
    rw [if_neg (length_dumpsV_ne _)]
    exact loads_dumps _

theorem C9_workflow_roundtrip_witness :
    (WorkflowData.mk (some "Report") (some "desc") none
        (some (.arr [.obj [("action_type", .str "click")]])) none (some (3 / 4))
        none (some 5)).name = some "Report"
    ∧ add_workflow
        (WorkflowData.mk (some "Report") (some "desc") none
          (some (.arr [.obj [("action_type", .str "click")]])) none (some (3 / 4))
          none (some 5)) (DBState.mk [] [] 1 1)
        = Except.ok (1, DBState.mk
            [WRow.mk 1 "Report" (some "desc") none
              (String.mk (dumpsV (.arr [.obj [("action_type", .str "click")]])))
              (String.mk (dumpsV (.arr []))) (3 / 4) "manual" 5 0 0] [] 2 1)
    ∧ (∀ r ∈ (DBState.mk ([] : List WRow) ([] : List LogRow) 1 1).workflows,
        r.id ≠ (DBState.mk ([] : List WRow) ([] : List LogRow) 1 1).nextId)
    ∧ ∃ d, get_workflow (DBState.mk
          [WRow.mk 1 "Report" (some "desc") none
            (String.mk (dumpsV (.arr [.obj [("action_type", .str "click")]])))
            (String.mk (dumpsV (.arr []))) (3 / 4) "manual" 5 0 0] [] 2 1) 1
        = some d
      ∧ d.name = "Report"
      ∧ d.description = some "desc"
      ∧ d.category = none
      ∧ d.steps = some (.arr [.obj [("action_type", .str "click")]])
      ∧ d.wvariables = some (.arr [])
      ∧ d.confidence = 3 / 4
      ∧ d.estimated_savings = 5
      ∧ d.times_run = 0 ∧ d.times_succeeded = 0 := by
  refine ⟨rfl, rfl, by simp, ?_⟩
  have h := C9_workflow_roundtrip
    (WorkflowData.mk (some "Report") (some "desc") none
      (some (.arr [.obj [("action_type", .str "click")]])) none (some (3 / 4))
      none (some 5)) (DBState.mk [] [] 1 1) "Report" 1
    (DBState.mk
      [WRow.mk 1 "Report" (some "desc") none
        (String.mk (dumpsV (.arr [.obj [("action_type", .str "click")]])))
        (String.mk (dumpsV (.arr []))) (3 / 4) "manual" 5 0 0] [] 2 1)
    rfl rfl (by simp)
  exact h

/-- C10: a `Database.log_execution` call for workflow id `wid` (present in
`execution_data`, as NOT NULL requires) bumps that workflow's `times_run` by
exactly 1 and `times_succeeded` by 1 exactly when the logged success flag is
set; moreover both `log_execution` and `add_workflow` preserve the invariant
`0 <= times_succeeded <= times_run` of every row, which therefore holds after
any operation sequence from creation (new rows start at 0/0). -/
theorem C10_log_execution_counters (ed : ExecData) (db : DBState)
    (wid lid : Nat) (db2 : DBState)
    (hw : ed.workflow_id = some wid)
    (hlog : log_execution ed db = Except.ok (lid, db2)) :
    (∀ d, get_workflow db wid = some d →
      ∃ d2, get_workflow db2 wid = some d2
        ∧ d2.times_run = d.times_run + 1
        ∧ d2.times_succeeded = d.times_succeeded + (if ed.success then 1 else 0))
    ∧ ((∀ r ∈ db.workflows, 0 ≤ r.times_succeeded ∧ r.times_succeeded ≤ r.times_run) →
        ∀ r ∈ db2.workflows, 0 ≤ r.times_succeeded ∧ r.times_succeeded ≤ r.times_run)
    ∧ (∀ (wd : WorkflowData) (db3 db4 : DBState) (w2 : Nat),
        add_workflow wd db3 = Except.ok (w2, db4) →
        (∀ r ∈ db3.workflows, 0 ≤ r.times_succeeded ∧ r.times_succeeded ≤ r.times_run) →
        ∀ r ∈ db4.workflows, 0 ≤ r.times_succeeded ∧ r.times_succeeded ≤ r.times_run) := by
  rw [log_execution, hw] at hlog
  conv at hlog => lhs; whnf
  injection hlog with h1
  injection h1 with hlid hdb
  have hwdb : db2.workflows = (if ed.success then
      db.workflows.map (fun r => if r.id == wid then
        { r with times_succeeded := r.times_succeeded + 1,
                 times_run := r.times_run + 1 } else r)
    else
      db.workflows.map (fun r => if r.id == wid then
        { r with times_run := r.times_run + 1 } else r)) := by
    rw [← hdb]
  refine ⟨?_, ?_, ?_⟩
  · intro d hd
    rw [get_workflow] at hd
    cases hf : db.workflows.find? (fun r => r.id == wid) with
    | none =>
      rw [hf] at hd
      exact Option.noConfusion hd
    | some r =>
      rw [hf] at hd
      injection hd with hd2
      subst hd2
      rw [get_workflow, hwdb]
      cases hsucc : ed.success with
      | true =>
        rw [if_pos rfl, find?_map_bumpS wid db.workflows, hf]
        refine ⟨_, rfl, rfl, ?_⟩
        rw [if_pos rfl]
        rfl
      | false =>
        rw [if_neg (by simp), find?_map_bumpR wid db.workflows, hf]
        refine ⟨_, rfl, rfl, ?_⟩
        rw [if_neg (by simp)]
        simp [rowToDict]
  · intro hinv r hr
    rw [hwdb] at hr
    cases hsucc : ed.success with
    | true =>
      rw [hsucc, if_pos rfl] at hr
      obtain ⟨r0, hr0, hr1⟩ := List.mem_map.mp hr
      obtain ⟨ha, hb⟩ := hinv r0 hr0
      by_cases hid : (r0.id == wid) = true
      · rw [if_pos hid] at hr1
        rw [← hr1]
        refine ⟨?_, ?_⟩ <;> simp <;> omega
      · rw [if_neg hid] at hr1
        rw [← hr1]
        exact ⟨ha, hb⟩
    | false =>
      rw [hsucc, if_neg (by simp)] at hr
      obtain ⟨r0, hr0, hr1⟩ := List.mem_map.mp hr
      obtain ⟨ha, hb⟩ := hinv r0 hr0
      by_cases hid : (r0.id == wid) = true
      · rw [if_pos hid] at hr1
        rw [← hr1]
        refine ⟨?_, ?_⟩ <;> simp <;> omega
      · rw [if_neg hid] at hr1
        rw [← hr1]
        exact ⟨ha, hb⟩
  · intro wd db3 db4 w2 hadd hinv r hr
    cases hn : wd.name with
    | none =>
      rw [add_workflow, hn] at hadd
      exact Except.noConfusion hadd
    | some nm =>
      rw [add_workflow, hn] at hadd
      conv at hadd => lhs; whnf
      injection hadd with h2
      injection h2 with hw2 hdb4
      rw [← hdb4] at hr
      rcases List.mem_append.mp hr with hm | hm
      · exact hinv r hm
      · rw [List.mem_singleton] at hm
        subst hm
        exact ⟨le_rfl, le_rfl⟩

theorem C10_log_execution_counters_witness :
    (ExecData.mk (some 1) true 2 2 none 0).workflow_id = some 1
    ∧ log_execution (ExecData.mk (some 1) true 2 2 none 0)
        (DBState.mk [WRow.mk 1 "W" none none "[]" "[]" 0 "manual" 0 3 2] [] 2 1)
        = Except.ok (1, DBState.mk
            [WRow.mk 1 "W" none none "[]" "[]" 0 "manual" 0 4 3]
            [LogRow.mk 1 1 true 2 2 none] 2 2)
    ∧ ((∀ d, get_workflow
          (DBState.mk [WRow.mk 1 "W" none none "[]" "[]" 0 "manual" 0 3 2] [] 2 1) 1
          = some d →
        ∃ d2, get_workflow (DBState.mk
            [WRow.mk 1 "W" none none "[]" "[]" 0 "manual" 0 4 3]
            [LogRow.mk 1 1 true 2 2 none] 2 2) 1 = some d2
          ∧ d2.times_run = d.times_run + 1
          ∧ d2.times_succeeded = d.times_succeeded
              + (if (ExecData.mk (some 1) true 2 2 none 0).success then 1 else 0))
      ∧ ((∀ r ∈ (DBState.mk [WRow.mk 1 "W" none none "[]" "[]" 0 "manual" 0 3 2]
            ([] : List LogRow) 2 1).workflows,
            0 ≤ r.times_succeeded ∧ r.times_succeeded ≤ r.times_run) →
          ∀ r ∈ (DBState.mk
              [WRow.mk 1 "W" none none "[]" "[]" 0 "manual" 0 4 3]
              [LogRow.mk 1 1 true 2 2 none] 2 2).workflows,
            0 ≤ r.times_succeeded ∧ r.times_succeeded ≤ r.times_run)
      ∧ (∀ (wd : WorkflowData) (db3 db4 : DBState) (w2 : Nat),
          add_workflow wd db3 = Except.ok (w2, db4) →
          (∀ r ∈ db3.workflows, 0 ≤ r.times_succeeded ∧ r.times_succeeded ≤ r.times_run) →
          ∀ r ∈ db4.workflows, 0 ≤ r.times_succeeded ∧ r.times_succeeded ≤ r.times_run)) :=
  ⟨rfl, rfl, C10_log_execution_counters (ExecData.mk (some 1) true 2 2 none 0)
    (DBState.mk [WRow.mk 1 "W" none none "[]" "[]" 0 "manual" 0 3 2] [] 2 1)
    1 1 (DBState.mk [WRow.mk 1 "W" none none "[]" "[]" 0 "manual" 0 4 3]
      [LogRow.mk 1 1 true 2 2 none] 2 2) rfl rfl⟩

/-! ### C5: `LearningEngine.learn_from_session` -/

/-- `LearningEngine._calculate_pattern_confidence` on a session count. -/
def calculate_pattern_confidence (n : Nat) : ℚ :=
  min (8 / 10) (5 / 10 + ((n : ℚ) - (minOccurrences : ℚ)) * (1 / 10))

/-- The bound workflow record it carries when `learn_from_session` returns. -/
structure LearnedWorkflow where
  workflow : VWorkflow
  pattern_confidence : ℚ
  sessions_used : List String
  id : Nat

/-- The dict `learn_from_session` passes to `Database.add_workflow`, viewed
through the fields `add_workflow` reads.  The decisive point:
`_validate_workflow` emits the key `workflow_name` and never `name`, and
neither of the keys `learn_from_session` adds (`pattern_confidence`,
`sessions_used`) is `name` either, so `workflow_data.get("name")` is `None`.
Non-string/steps fields are mapped on a best-effort basis; none of them is
reached, because the NOT NULL violation on `name` fires first. -/
def toWorkflowData (w : VWorkflow) : WorkflowData :=
  { name := none
    description := match w.description with | .str s => some s | _ => none
    category := match w.category with | .str s => some s | _ => none
    steps := none
    wvariables := none
    confidence := some w.confidence
    frequency := none
    estimated_savings := some w.estimated_savings }

/-- `LearningEngine.learn_from_session` after the timeline has been loaded,
with the I/O-derived inputs explicit: `similar` is the result of
`_find_similar_sessions` (similar already-learned sessions on disk) and `llm`
the outcome of the text-generator call inside `generate_workflow`.
`ok none` is the "no pattern yet" path; `error` models an uncaught
exception escaping the method. -/
def learn_from_session (llm : Except Unit PyVal) (timeline : TimelineObj)
    (similar : List TimelineObj) (db : DBState) :
    Except String (Option (LearnedWorkflow × DBState)) :=
  if similar.length ≥ minOccurrences - 1 then
    match generate_workflow llm timeline with
    | .error e => .error e
    | .ok w =>
      match add_workflow (toWorkflowData w) db with
      | .error e => .error e
      | .ok (wid, db2) =>
        .ok (some
          ({ workflow := w
             pattern_confidence := calculate_pattern_confidence (similar.length + 1)
             sessions_used := (similar ++ [timeline]).map (fun s => s.session_id.getD "")
             id := wid }, db2))
  else .ok none

/-- C5 (code bug): whenever the similar-session threshold is met — the very
case in which the spec says a workflow is returned — `learn_from_session`
raises `sqlite3.IntegrityError` instead: the generated dict carries
`workflow_name` but no `name`, and `Database.add_workflow` inserts
`workflow_data.get("name")`, i.e. NULL, into the NOT NULL `name` column.  No
pattern-detected call ever returns a workflow. -/
theorem C5_learn_integrity_error (llm : Except Unit PyVal)
    (timeline : TimelineObj) (similar : List TimelineObj) (db : DBState)
    (w : VWorkflow)
    (hn : similar.length ≥ minOccurrences - 1)
    (hgen : generate_workflow llm timeline = Except.ok w) :
    learn_from_session llm timeline similar db
      = Except.error "IntegrityError: NOT NULL constraint failed: workflows.name" := by
  rw [learn_from_session, if_pos hn, hgen]
  rfl

theorem C5_learn_integrity_error_witness :
    ([TimelineObj.mk [] none none, TimelineObj.mk [] none none].length
        ≥ minOccurrences - 1)
    ∧ generate_workflow (Except.ok (PyVal.obj [])) (TimelineObj.mk [] none none)
        = Except.ok
          { workflow_name := .str "Unnamed Workflow"
            description := .str ""
            confidence := 1 / 2
            category := .str "general"
            estimated_time_manual := .str "0 seconds"
            estimated_time_auto := .str "0 seconds"
            steps := []
            wvariables := .arr []
            triggers := .arr [.str "manual"]
            estimated_savings :=
              match parse_time (.str "0 seconds"), parse_time (.str "0 seconds") with
              | some mt, some at2 => max 0 (mt - at2)
              | _, _ => 0 }
    ∧ learn_from_session (Except.ok (PyVal.obj [])) (TimelineObj.mk [] none none)
        [TimelineObj.mk [] none none, TimelineObj.mk [] none none]
        (DBState.mk [] [] 1 1)
      = Except.error "IntegrityError: NOT NULL constraint failed: workflows.name" :=
  ⟨by decide, rfl,
    C5_learn_integrity_error (Except.ok (PyVal.obj [])) (TimelineObj.mk [] none none)
      [TimelineObj.mk [] none none, TimelineObj.mk [] none none]
      (DBState.mk [] [] 1 1) _ (by decide) rfl⟩

end AGI
